import Mathlib

/-!
# spay: bit-string codec, 3DES-CBC envelope and response classification

A shallow embedding of `src/api.go`, `src/crypt.go` and `src/dto.go`.

* Go `string` and `[]byte` values that carry key material, plaintext or
  ciphertext are lists of bytes (`List Byte`); `nil` and empty slices are
  not distinguished.
* Go strings that are only formatted and compared (status text, decoded
  JSON fields, error messages) are Lean strings.
* A Go function returning `(T, error)` is a pair `T × Option GoError`.
* A Go runtime panic is the `Outcome.panic` result.
* The standard library (`strconv`, `encoding/base64`, `crypto/cipher`) is
  modelled from its documented behaviour; the DES block transformation
  itself is a parameter that satisfies the `cipher.Block` contract.
-/

namespace Spay

/-! ## Values and errors -/

/-- One byte of a Go string or byte slice. -/
abbrev Byte := Fin 256

/-- Go `any` as produced by `encoding/json` (never inspected by the program). -/
inductive JsonAny where
  | null : JsonAny
  | bool (b : Bool) : JsonAny
  | number (text : String) : JsonAny
  | string (s : String) : JsonAny
  | array (xs : List JsonAny) : JsonAny
  | object (kvs : List (String × JsonAny)) : JsonAny

/-- Go struct `ApiResponseErrorResultData` (dto.go). -/
structure ApiResponseErrorResultData where
  ResponseText : String
  Status : JsonAny

/-- Go struct `ApiResponseErrorResult` (dto.go). -/
structure ApiResponseErrorResult where
  Message : String
  Response : String
  Responsedata : JsonAny
  Data : ApiResponseErrorResultData

/-- Go error values occurring in the modelled code. -/
inductive GoError where
  /-- Go `*strconv.NumError` wrapping `strconv.ErrSyntax`. -/
  | numSyntax : GoError
  /-- Go `*strconv.NumError` wrapping `strconv.ErrRange`. -/
  | numRange : GoError
  /-- Go `*strconv.NumError` for an invalid base. -/
  | numBase : GoError
  /-- Go `des.KeySizeError(n)`. -/
  | keySize (n : Nat) : GoError
  /-- Go `base64.CorruptInputError` (the offset is not modelled). -/
  | corruptInput : GoError
  /-- An error of `encoding/json`. -/
  | json (msg : String) : GoError
  /-- A failure of the HTTP transport (`net/http`, `io`). -/
  | transport (msg : String) : GoError
  /-- Go `errors.New(msg)`, or `fmt.Errorf` without a `%w` verb. -/
  | errorString (msg : String) : GoError
  /-- Go `fmt.Errorf` with message prefix `msg` and a `%w` verb for `inner`. -/
  | wrapped (msg : String) (inner : GoError) : GoError
  /-- A `*ApiResponseErrorResult` used as an error. -/
  | api (e : ApiResponseErrorResult) : GoError

/-- Result of running Go code that may panic. -/
inductive Outcome (α : Type) where
  | ret (a : α) : Outcome α
  | panic (msg : String) : Outcome α

/-! ## strconv.ParseUint (Go standard library) -/

/-- Go `strconv.lower`: `c | ('x' - 'X')`. -/
def lower (c : Byte) : Nat := c.val ||| 32

/-- The digit value that `strconv.ParseUint` gives to a byte, if any
(`'_'` is a digit separator only for base 0). -/
def digitVal (c : Byte) : Option Nat :=
  if 48 ≤ c.val ∧ c.val ≤ 57 then some (c.val - 48)
  else if 97 ≤ lower c ∧ lower c ≤ 122 then some (lower c - 97 + 10)
  else none

/-- The digit loop of `strconv.ParseUint` on `uint64` arithmetic. -/
def ParseUintLoop (base maxVal cutoff : Nat) : List Byte → Nat → Nat × Option GoError
  | [], n => (n, none)
  | c :: cs, n =>
    match digitVal c with
    | none => (0, some GoError.numSyntax)
    | some d =>
      if d ≥ base then (0, some GoError.numSyntax)
      else if n ≥ cutoff then (maxVal, some GoError.numRange)
      else
        let n0 := (n * base) % 2 ^ 64
        let n1 := (n0 + d) % 2 ^ 64
        if n1 < n0 ∨ n1 > maxVal then (maxVal, some GoError.numRange)
        else ParseUintLoop base maxVal cutoff cs n1

/-- Go `strconv.ParseUint(s, base, bitSize)` for an explicit base
`2 ≤ base ≤ 36` and `1 ≤ bitSize ≤ 64`. Base 0 (prefix detection) is not
used by this program and is reported like any other invalid base. -/
def ParseUint (s : List Byte) (base bitSize : Nat) : Nat × Option GoError :=
  if s = [] then (0, some GoError.numSyntax)
  else if base < 2 ∨ 36 < base then (0, some GoError.numBase)
  else ParseUintLoop base (2 ^ bitSize - 1) ((2 ^ 64 - 1) / base + 1) s 0

/-! ## BitString (api.go) -/

/-- Go `type BitString string`. -/
abbrev BitString := List Byte

/-- The loop of `BitString.AsByteSlice`: `for i := len(b); i > 0; i -= 8`.
The index is a natural number: Go leaves the loop as soon as `i - 8 ≤ 0`,
and `i - 8 < 0` is `i < 8`. -/
def AsByteSliceLoop (b : BitString) (i : Nat) (out : List Byte) : List Byte × Option GoError :=
  if 0 < i then
    let str := if i < 8 then b.take i else (b.take i).drop (i - 8)
    match ParseUint str 2 8 with
    | (_, some err) => ([], some err)
    | (v, none) => AsByteSliceLoop b (i - 8) (Fin.ofNat v :: out)
  else (out, none)
termination_by i
decreasing_by omega

/-- Go `func (b BitString) AsByteSlice() ([]byte, error)`. -/
def BitString.AsByteSlice (b : BitString) : List Byte × Option GoError :=
  AsByteSliceLoop b b.length []

/-! ## encoding/base64, StdEncoding (Go standard library) -/

/-- The alphabet of `base64.StdEncoding`: `A`-`Z`, `a`-`z`, `0`-`9`, `+`, `/`. -/
def encodeStd : List Byte :=
  [65, 66, 67, 68, 69, 70, 71, 72, 73, 74, 75, 76, 77, 78, 79, 80,
   81, 82, 83, 84, 85, 86, 87, 88, 89, 90, 97, 98, 99, 100, 101, 102,
   103, 104, 105, 106, 107, 108, 109, 110, 111, 112, 113, 114, 115, 116, 117, 118,
   119, 120, 121, 122, 48, 49, 50, 51, 52, 53, 54, 55, 56, 57, 43, 47]

/-- The padding character `=` of `base64.StdEncoding`. -/
def padChar : Byte := 61

/-- Go `enc.encode[v]`. -/
def encodeChar (v : Nat) : Byte := encodeStd.getD v 0

/-- Go `enc.decodeMap[c]`: the index of `c` in the alphabet, `0xff` when absent. -/
def decodeMap (c : Byte) : Nat :=
  let i := encodeStd.indexOf c
  if i < 64 then i else 255

/-- Go `base64.StdEncoding.EncodeToString`: three bytes become four
characters; a final group of one or two bytes is padded with `=`. -/
def EncodeToString : List Byte → List Byte
  | [] => []
  | [a] =>
    let val := a.val <<< 16
    [encodeChar (val >>> 18 &&& 63), encodeChar (val >>> 12 &&& 63), padChar, padChar]
  | [a, b] =>
    let val := a.val <<< 16 ||| b.val <<< 8
    [encodeChar (val >>> 18 &&& 63), encodeChar (val >>> 12 &&& 63),
      encodeChar (val >>> 6 &&& 63), padChar]
  | a :: b :: c :: rest =>
    let val := a.val <<< 16 ||| b.val <<< 8 ||| c.val
    encodeChar (val >>> 18 &&& 63) :: encodeChar (val >>> 12 &&& 63) ::
      encodeChar (val >>> 6 &&& 63) :: encodeChar (val &&& 63) :: EncodeToString rest

/-- Skips the newline characters that the decoder ignores. -/
def skipNewlines : List Byte → List Byte
  | [] => []
  | c :: rest => if c = 10 ∨ c = 13 then skipNewlines rest else c :: rest

/-- The bytes a quantum of `dlen` six-bit digits decodes to (Go
`decodeQuantum`, "Convert 4x 6bit source bytes into 3 bytes"). -/
def quantumBytes (dbuf : List Nat) (dlen : Nat) : List Byte :=
  let val := dbuf.getD 0 0 <<< 18 ||| dbuf.getD 1 0 <<< 12 ||| dbuf.getD 2 0 <<< 6 ||| dbuf.getD 3 0
  ([Fin.ofNat (val >>> 16), Fin.ofNat (val >>> 8), Fin.ofNat val] : List Byte).take (dlen - 1)

/-- The decoder of `base64.StdEncoding` (non-strict, padded): `dbuf` holds
the digits of the quantum read so far. Newlines are ignored, padding is
required and may only be followed by newlines. -/
def decodeLoop : List Byte → List Nat → Except GoError (List Byte)
  | [], dbuf => if dbuf.length = 0 then .ok [] else .error GoError.corruptInput
  | c :: rest, dbuf =>
    if decodeMap c ≠ 255 then
      if dbuf.length = 3 then
        match decodeLoop rest [] with
        | .error e => .error e
        | .ok tl => .ok (quantumBytes (dbuf ++ [decodeMap c]) 4 ++ tl)
      else decodeLoop rest (dbuf ++ [decodeMap c])
    else if c = 10 ∨ c = 13 then decodeLoop rest dbuf
    else if c ≠ padChar then .error GoError.corruptInput
    else
      match dbuf.length with
      | 0 => .error GoError.corruptInput
      | 1 => .error GoError.corruptInput
      | 2 =>
        match skipNewlines rest with
        | [] => .error GoError.corruptInput
        | c2 :: rest2 =>
          if c2 ≠ padChar then .error GoError.corruptInput
          else if skipNewlines rest2 ≠ [] then .error GoError.corruptInput
          else .ok (quantumBytes dbuf 2)
      | _ =>
        if skipNewlines rest ≠ [] then .error GoError.corruptInput
        else .ok (quantumBytes dbuf 3)

/-- Go `base64.StdEncoding.DecodeString`. The partial output that Go
returns next to an error is dropped: the program discards it. -/
def DecodeString (s : List Byte) : Except GoError (List Byte) := decodeLoop s []

/-! ## crypto/des and crypto/cipher (Go standard library) -/

/-- Go `des.BlockSize`. -/
def BlockSize : Nat := 8

/-- The contract of a Go `cipher.Block` with block size 8: `Encrypt` and
`Decrypt` map a block to a block and `Decrypt` inverts `Encrypt`. -/
structure Block where
  Encrypt : List Byte → List Byte
  Decrypt : List Byte → List Byte
  Encrypt_length : ∀ b : List Byte, b.length = 8 → (Encrypt b).length = 8
  Decrypt_length : ∀ b : List Byte, b.length = 8 → (Decrypt b).length = 8
  Decrypt_Encrypt : ∀ b : List Byte, b.length = 8 → Decrypt (Encrypt b) = b

/-- Go `des.NewTripleDESCipher`: the key must have 24 bytes. The keyed
block transformation `des` is a parameter. -/
def NewTripleDESCipher (des : List Byte → Block) (key : List Byte) : Except GoError Block :=
  if key.length ≠ 24 then .error (GoError.keySize key.length) else .ok (des key)

/-- Go `subtle.XORBytes`: bytewise xor up to the shorter length. -/
def XORBytes (x y : List Byte) : List Byte := List.zipWith (fun a b => a ^^^ b) x y

/-- The block loop of `cbcEncrypter.CryptBlocks`: every block is xored
with the previous ciphertext block (the IV at first) and encrypted. -/
def cbcEncryptBlocks (b : Block) (iv src : List Byte) : List Byte :=
  if 0 < src.length then
    let blk := b.Encrypt (XORBytes (src.take BlockSize) iv)
    blk ++ cbcEncryptBlocks b blk (src.drop BlockSize)
  else []
termination_by src.length
decreasing_by simp [BlockSize]; omega

/-- The block loop of `cbcDecrypter.CryptBlocks`: every block is decrypted
and xored with the previous ciphertext block (the IV at first). -/
def cbcDecryptBlocks (b : Block) (iv src : List Byte) : List Byte :=
  if 0 < src.length then
    let blk := src.take BlockSize
    XORBytes (b.Decrypt blk) iv ++ cbcDecryptBlocks b blk (src.drop BlockSize)
  else []
termination_by src.length
decreasing_by simp [BlockSize]; omega

/-- Go `cipher.NewCBCEncrypter(b, iv)` followed by `CryptBlocks(data, data)`:
panics when the IV is not one block long or the data is not whole blocks. -/
def CBCEncrypt (b : Block) (iv data : List Byte) : Outcome (List Byte) :=
  if iv.length ≠ BlockSize then
    .panic "cipher.NewCBCEncrypter: IV length must equal block size"
  else if data.length % BlockSize ≠ 0 then .panic "crypto/cipher: input not full blocks"
  else .ret (cbcEncryptBlocks b iv data)

/-- Go `cipher.NewCBCDecrypter(b, iv)` followed by `CryptBlocks(dst, src)`
into a fresh buffer of the same length. -/
def CBCDecrypt (b : Block) (iv src : List Byte) : Outcome (List Byte) :=
  if iv.length ≠ BlockSize then
    .panic "cipher.NewCBCDecrypter: IV length must equal block size"
  else if src.length % BlockSize ≠ 0 then .panic "crypto/cipher: input not full blocks"
  else .ret (cbcDecryptBlocks b iv src)

/-! ## crypt.go -/

/-- The padded buffer of `TripleDESCBCEncrypt`: `make`, `copy`, and the
loop `for i := len(input); i < len(input)+pad; i++ { data[i] = byte(pad) }`. -/
def paddedData (input : List Byte) (pad : Nat) : List Byte :=
  let data : List Byte := List.replicate (input.length + pad) 0
  let data := input.take data.length ++ data.drop input.length
  (List.range' input.length pad).foldl (fun d i => d.set i (Fin.ofNat pad)) data

/-- Go `func TripleDESCBCEncrypt(input string, encryptionKey, encryptionvector []byte) (string, error)`. -/
def TripleDESCBCEncrypt (des : List Byte → Block) (input : List Byte)
    (encryptionKey encryptionvector : List Byte) : Outcome (List Byte × Option GoError) :=
  let key := encryptionKey
  let iv := encryptionvector
  let pad := BlockSize - input.length % BlockSize
  let pad := if pad = 0 then BlockSize else pad
  let data := paddedData input pad
  match NewTripleDESCipher des key with
  | .error err => .ret ([], some (GoError.wrapped "new tripledes cipher: " err))
  | .ok cb =>
    match CBCEncrypt cb iv data with
    | .panic msg => .panic msg
    | .ret data => .ret (EncodeToString data, none)

/-- Go `func TripleDESCBCDecrypt(payload string, encryptionKey, encryptionvector []byte) (string, error)`. -/
def TripleDESCBCDecrypt (des : List Byte → Block) (payload : List Byte)
    (encryptionKey encryptionvector : List Byte) : Outcome (List Byte × Option GoError) :=
  let key := encryptionKey
  let iv := encryptionvector
  match DecodeString payload with
  | .error err => .ret ([], some err)
  | .ok ciphertext =>
    match NewTripleDESCipher des key with
    | .error err => .ret ([], some err)
    | .ok block =>
      if ciphertext.length < BlockSize then
        .ret ([], some (GoError.errorString "ciphertext too short"))
      else if ciphertext.length % BlockSize ≠ 0 then
        .ret ([], some (GoError.errorString "ciphertext is not a multiple of the block size"))
      else
        match CBCDecrypt block iv ciphertext with
        | .panic msg => .panic msg
        | .ret plaintext => .ret (plaintext, none)

/-! ## dto.go -/

/-- The type of Go strings that are only formatted and compared. -/
abbrev Text := String

/-- Go `func (a ApiResponseErrorResult) String() string`:
`fmt.Sprintf("message=%s code=%s", a.Data.ResponseText, a.Response)`. -/
def ApiResponseErrorResult.String (a : ApiResponseErrorResult) : Text :=
  "message=" ++ a.Data.ResponseText ++ " code=" ++ a.Response

/-- Go `func (a ApiResponseErrorResult) Error() string`. -/
def ApiResponseErrorResult.Error (a : ApiResponseErrorResult) : Text := a.String

/-- Go `func (a ApiResponseErrorResult) Is(target error) bool`, for a target
that is itself an `ApiResponseErrorResult` (the sentinels of the package):
`target.Error() == a.Error()`. -/
def ApiResponseErrorResult.Is (a target : ApiResponseErrorResult) : Bool :=
  target.Error == a.Error

/-- Go `ErrInsufficientFunds` (dto.go); unset fields are zero values. -/
def ErrInsufficientFunds : ApiResponseErrorResult :=
  { Message := "", Response := "x51", Responsedata := JsonAny.null,
    Data := { ResponseText := "Insufficient Funds", Status := JsonAny.null } }

/-- Go `ErrToAccountNotAllowed` (dto.go); unset fields are zero values. -/
def ErrToAccountNotAllowed : ApiResponseErrorResult :=
  { Message := "", Response := "03x", Responsedata := JsonAny.null,
    Data := { ResponseText := "To Account is not Allowed for this Operation",
              Status := JsonAny.null } }

/-- Go `errors.Is(err, target)` for a sentinel target of the package: the
chain of `%w` wrappers is followed, and a `*ApiResponseErrorResult` in the
chain answers with its `Is` method (a link identical to the target also
answers true through `Is`); the other error kinds have no `Is` method and
are never identical to a sentinel. -/
def errorsIs : GoError → ApiResponseErrorResult → Bool
  | GoError.api e, target => e.Is target
  | GoError.wrapped _ inner, target => errorsIs inner target
  | _, _ => false

/-! ## api.go -/

/-- Go struct `Config` (the `float64` field `transferCost` is left out). -/
structure Config where
  appId : Int
  sharedKey : BitString
  sharedVector : BitString
  baseUrl : String
  FromAccount : String

/-- Go struct `Api` (the HTTP client is a parameter of `Api.request`). -/
structure Api where
  config : Config
  tellerId : String
  shouldDecryptResponse : Bool

/-- Go constant `tellerId`. -/
def tellerId : String := "sample-teller-e5dc63e264d29b7578e96bf"

/-- Go `func NewApi(sharedVector, sharedKey BitString, appId int32, fromAccount string,
shouldDecryptResponse bool, baseUrl string) (*Api, error)`. -/
def NewApi (sharedVector sharedKey : BitString) (appId : Int) (fromAccount : String)
    (shouldDecryptResponse : Bool) (baseUrl : String) : Option Api × Option GoError :=
  if baseUrl = "" then (none, some (GoError.errorString "base url is required for spay api"))
  else
    let config : Config :=
      { appId := appId, sharedKey := sharedKey, sharedVector := sharedVector,
        baseUrl := baseUrl, FromAccount := fromAccount }
    (some { config := config, tellerId := tellerId,
            shouldDecryptResponse := shouldDecryptResponse }, none)

/-- The request that `Api.request` hands to the HTTP client. -/
structure HttpRequest where
  Method : String
  URL : String
  AppId : String
  Body : List Byte

/-- The part of a Go `*http.Response` that `Api.request` reads. -/
structure HttpResponse where
  Status : String
  StatusCode : Int
  Body : List Byte

/-- What the HTTP collaborators do with a request: `http.NewRequest` fails,
`httpClient.Do` fails, `io.ReadAll` fails, or a response is read. -/
inductive Exchange where
  | newRequestError (err : GoError) : Exchange
  | doError (err : GoError) : Exchange
  | readError (err : GoError) : Exchange
  | response (result : HttpResponse) : Exchange

/-- Go `func (a *Api) request(uri, method string, data []byte) ([]byte, error)`.
The HTTP exchange `http` and `json.Unmarshal` into an
`ApiResponseErrorResult` are parameters; logging is left out. -/
def Api.request (http : HttpRequest → Exchange)
    (unmarshal : List Byte → Except GoError ApiResponseErrorResult)
    (a : Api) (uri method : String) (data : List Byte) : List Byte × Option GoError :=
  let url := a.config.baseUrl ++ uri
  match http { Method := method, URL := url, AppId := toString a.config.appId, Body := data } with
  | Exchange.newRequestError err => ([], some (GoError.wrapped "spay request: " err))
  | Exchange.doError err => ([], some (GoError.wrapped "spay response: " err))
  | Exchange.readError err => ([], some (GoError.wrapped "spay response reading: " err))
  | Exchange.response result =>
    let resultBytes := result.Body
    if result.StatusCode < 200 ∨ result.StatusCode > 299 then
      if resultBytes.length ≤ 0 then
        ([], some (GoError.errorString ("empty response received: " ++ result.Status)))
      else
        match unmarshal resultBytes with
        | .error err =>
          ([], some (GoError.wrapped "could not unmarshal error response to error obj: " err))
        | .ok errMsg => ([], some (GoError.api errMsg))
    else (resultBytes, none)

/-- Go `func (a *Api) encrypt(val string) (string, error)`; the result of the
decryption test is only logged. -/
def Api.encrypt (des : List Byte → Block) (a : Api) (val : List Byte) :
    Outcome (List Byte × Option GoError) :=
  match BitString.AsByteSlice a.config.sharedKey with
  | (_, some err) => .ret ([], some err)
  | (sharedKeyVal, none) =>
    match BitString.AsByteSlice a.config.sharedVector with
    | (_, some err) => .ret ([], some err)
    | (sharedVectorVal, none) =>
      match TripleDESCBCEncrypt des val sharedKeyVal sharedVectorVal with
      | .panic msg => .panic msg
      | .ret (_, some err) => .ret ([], some err)
      | .ret (encryptedResult, none) =>
        match TripleDESCBCDecrypt des encryptedResult sharedKeyVal sharedVectorVal with
        | .panic msg => .panic msg
        | .ret _ => .ret (encryptedResult, none)

/-- Go `func (a *Api) decrypt(val string) (string, error)`; its last line is
`return TripleDESCBCEncrypt(val, sharedKeyVal, sharedVectorVal)`. -/
def Api.decrypt (des : List Byte → Block) (a : Api) (val : List Byte) :
    Outcome (List Byte × Option GoError) :=
  match BitString.AsByteSlice a.config.sharedKey with
  | (_, some err) => .ret ([], some err)
  | (sharedKeyVal, none) =>
    match BitString.AsByteSlice a.config.sharedVector with
    | (_, some err) => .ret ([], some err)
    | (sharedVectorVal, none) => TripleDESCBCEncrypt des val sharedKeyVal sharedVectorVal

/-! ## Notions used to state the properties -/

/-- A byte that is the character `0` or `1`. -/
def isBit (c : Byte) : Prop := c = 48 ∨ c = 49

instance (c : Byte) : Decidable (isBit c) := by unfold isBit; infer_instance

/-- The lowest `k` binary digits of `v` as characters `0` and `1`, most
significant first. -/
def toBits : Nat → Nat → List Byte
  | 0, _ => []
  | k + 1, v => (if v / 2 ^ k % 2 = 1 then 49 else 48) :: toBits k v

/-- The byte written as 8 binary digit characters, most significant bit first. -/
def byteBits (v : Byte) : List Byte := toBits 8 v.val

/-- The number that a string of binary digit characters denotes, continuing
from the value `n` of the digits before it. -/
def binVal (s : List Byte) (n : Nat) : Nat := s.foldl (fun n c => 2 * n + (c.val - 48)) n

/-- A client whose key bit-string is 192 zero digits and whose IV bit-string
is 64 zero digits: they parse to a 24-byte key and an 8-byte IV. -/
def zeroKeyApi : Api :=
  { config := { appId := 1, sharedKey := List.replicate 192 48,
                sharedVector := List.replicate 64 48,
                baseUrl := "https://sbdevzone.sterling.ng/Spay", FromAccount := "" },
    tellerId := tellerId, shouldDecryptResponse := true }

/-- A block transformation used to instantiate the `cipher.Block` contract
on concrete inputs: every byte is xored with the first key byte. -/
def sampleBlock (key : List Byte) : Block where
  Encrypt b := b.map (fun x => x ^^^ key.headD 0)
  Decrypt b := b.map (fun x => x ^^^ key.headD 0)
  Encrypt_length := by intro b h; simp [h]
  Decrypt_length := by intro b h; simp [h]
  Decrypt_Encrypt := by
    intro b _
    simp only [List.map_map]
    conv_rhs => rw [← List.map_id b]
    apply List.map_congr_left
    intro x _
    show (x ^^^ key.headD 0) ^^^ key.headD 0 = x
    apply Fin.ext
    have h1 : ∀ a b : Fin 256, (a ^^^ b).val = a.val ^^^ b.val := by
      intro a b
      show (a.val ^^^ b.val) % 256 = a.val ^^^ b.val
      apply Nat.mod_eq_of_lt
      exact Nat.xor_lt_two_pow (n := 8) a.isLt b.isLt
    rw [h1, h1, Nat.xor_assoc, Nat.xor_self, Nat.xor_zero]

/-- The bytes of the error body
`{"response":"x51","data":{"ResponseText":"Insufficient Funds"}}`. -/
def insufficientFundsBody : List Byte :=
  [123, 34, 114, 101, 115, 112, 111, 110, 115, 101, 34, 58, 34, 120, 53, 49, 34, 44, 34, 100,
   97, 116, 97, 34, 58, 123, 34, 82, 101, 115, 112, 111, 110, 115, 101, 84, 101, 120, 116, 34,
   58, 34, 73, 110, 115, 117, 102, 102, 105, 99, 105, 101, 110, 116, 32, 70, 117, 110, 100,
   115, 34, 125, 125]

/-- The payload that `json.Unmarshal` decodes `insufficientFundsBody` to. -/
def insufficientFundsPayload : ApiResponseErrorResult :=
  { Message := "", Response := "x51", Responsedata := JsonAny.null,
    Data := { ResponseText := "Insufficient Funds", Status := JsonAny.null } }

/-- An HTTP exchange that answers every request with the given status and body. -/
def answering (status : String) (code : Int) (body : List Byte) : HttpRequest → Exchange :=
  fun _ => Exchange.response { Status := status, StatusCode := code, Body := body }

/-! ## encoding/json (Go standard library) -/

/-- Go struct `InterBankTransferResultData`. -/
structure InterBankTransferResultData where
  ResponseText : JsonAny
  Status : String

/-- Go struct `InterBankTransferResult`. -/
structure InterBankTransferResult where
  Message : String
  Response : String
  Responsedata : JsonAny
  Data : InterBankTransferResultData

/-- Go struct `SterlingToSterlingTransferResultData`. -/
structure SterlingToSterlingTransferResultData where
  Status : String

/-- Go struct `SterlingToSterlingTransferResult`. -/
structure SterlingToSterlingTransferResult where
  Message : String
  Response : String
  Responsedata : JsonAny
  Data : SterlingToSterlingTransferResultData

/-- The zero value of `InterBankTransferResult` (`var output InterBankTransferResult`). -/
def InterBankTransferResult.zero : InterBankTransferResult :=
  { Message := "", Response := "", Responsedata := JsonAny.null,
    Data := { ResponseText := JsonAny.null, Status := "" } }

/-- The zero value of `SterlingToSterlingTransferResult`. -/
def SterlingToSterlingTransferResult.zero : SterlingToSterlingTransferResult :=
  { Message := "", Response := "", Responsedata := JsonAny.null, Data := { Status := "" } }

theorem digitVal_of_isBit (c : Byte) (h : isBit c) :
    digitVal c = some (c.val - 48) ∧ c.val - 48 < 2 := by
  rcases h with h | h <;> subst h <;> decide

theorem digitVal_of_not_isBit (c : Byte) (h : ¬ isBit c) (d : Nat) (hd : digitVal c = some d) :
    2 ≤ d := by
  have h48 : c.val ≠ 48 := fun hv => h (Or.inl (Fin.ext hv))
  have h49 : c.val ≠ 49 := fun hv => h (Or.inr (Fin.ext hv))
  unfold digitVal at hd
  split_ifs at hd with h1 h2
  · injection hd with hd; omega
  · injection hd with hd; omega

theorem ParseUintLoop_not_isBit (mx ct : Nat) (s : List Byte) :
    ∀ n, (∃ c ∈ s, ¬ isBit c) → ∃ v e, ParseUintLoop 2 mx ct s n = (v, some e) := by
  induction s with
  | nil => intro n h; simp at h
  | cons c cs ih =>
    intro n h
    by_cases hc : isBit c
    · have hcs : ∃ x ∈ cs, ¬ isBit x := by
        obtain ⟨x, hx, hnx⟩ := h
        rcases List.mem_cons.mp hx with rfl | hx
        · exact absurd hc hnx
        · exact ⟨x, hx, hnx⟩
      obtain ⟨hd, hlt⟩ := digitVal_of_isBit c hc
      simp only [ParseUintLoop, hd]
      split_ifs
      · omega
      · exact ⟨_, _, rfl⟩
      · exact ⟨_, _, rfl⟩
      · exact ih _ hcs
    · simp only [ParseUintLoop]
      split
      · exact ⟨_, _, rfl⟩
      · rename_i d hd
        rw [if_pos (digitVal_of_not_isBit c hc d hd)]
        exact ⟨_, _, rfl⟩

theorem binVal_cons (c : Byte) (cs : List Byte) (n : Nat) :
    binVal (c :: cs) n = binVal cs (2 * n + (c.val - 48)) := rfl

theorem binVal_decomp (s : List Byte) :
    ∀ n, (∀ c ∈ s, isBit c) → ∃ r, r < 2 ^ s.length ∧ binVal s n = n * 2 ^ s.length + r := by
  induction s with
  | nil => intro n _; exact ⟨0, by simp [binVal]⟩
  | cons c cs ih =>
    intro n h
    have hc := (digitVal_of_isBit c (h c (List.mem_cons_self _ _))).2
    obtain ⟨r, hr, he⟩ := ih (2 * n + (c.val - 48)) (fun x hx => h x (List.mem_cons_of_mem _ hx))
    refine ⟨(c.val - 48) * 2 ^ cs.length + r, ?_, ?_⟩
    · simp only [List.length_cons, pow_succ]
      nlinarith
    · rw [binVal_cons, he]
      simp only [List.length_cons, pow_succ]
      ring

theorem binVal_lt (s : List Byte) (h : ∀ c ∈ s, isBit c) : binVal s 0 < 2 ^ s.length := by
  obtain ⟨r, hr, he⟩ := binVal_decomp s 0 h
  omega

theorem le_binVal (s : List Byte) : ∀ n, n ≤ binVal s n := by
  induction s with
  | nil => intro n; exact le_refl _
  | cons c cs ih =>
    intro n
    rw [binVal_cons]
    exact le_trans (by omega) (ih _)

theorem ParseUintLoop_isBit (s : List Byte) :
    ∀ n, (∀ c ∈ s, isBit c) → binVal s n ≤ 255 →
      ParseUintLoop 2 255 (2 ^ 63) s n = (binVal s n, none) := by
  induction s with
  | nil => intro n _ _; rfl
  | cons c cs ih =>
    intro n h hle
    obtain ⟨hd, hlt⟩ := digitVal_of_isBit c (h c (List.mem_cons_self _ _))
    rw [binVal_cons] at hle ⊢
    have hn := le_binVal cs (2 * n + (c.val - 48))
    simp only [ParseUintLoop, hd]
    have e0 : n * 2 % 2 ^ 64 = n * 2 := Nat.mod_eq_of_lt (by omega)
    have e1 : (n * 2 + (c.val - 48)) % 2 ^ 64 = 2 * n + (c.val - 48) := by
      rw [Nat.mod_eq_of_lt (by omega)]; omega
    rw [e0, e1]
    rw [if_neg (by omega), if_neg (by omega), if_neg (by omega)]
    exact ih _ (fun x hx => h x (List.mem_cons_of_mem _ hx)) hle

theorem ParseUint_isBit (s : List Byte) (h : ∀ c ∈ s, isBit c) (h0 : s ≠ [])
    (h8 : s.length ≤ 8) : ParseUint s 2 8 = (binVal s 0, none) := by
  have hlt := binVal_lt s h
  have hp : 2 ^ s.length ≤ 2 ^ 8 := Nat.pow_le_pow_right (by norm_num) h8
  unfold ParseUint
  rw [if_neg h0, if_neg (by omega)]
  have e : (2 ^ 64 - 1) / 2 + 1 = 2 ^ 63 := by norm_num
  have e2 : 2 ^ 8 - 1 = 255 := by norm_num
  rw [e, e2]
  exact ParseUintLoop_isBit s 0 h (by norm_num at hp; omega)

theorem ParseUint_not_isBit (s : List Byte) (h : ∃ c ∈ s, ¬ isBit c) :
    ∃ v e, ParseUint s 2 8 = (v, some e) := by
  unfold ParseUint
  have h0 : s ≠ [] := by
    rintro rfl
    simp at h
  rw [if_neg h0, if_neg (by omega)]
  exact ParseUintLoop_not_isBit _ _ s 0 h

/-! ## Binary digits of a parsed group -/

theorem toBits_pad (k v : Nat) (hv : v < 2 ^ k) :
    ∀ m, toBits (k + m) v = List.replicate m 48 ++ toBits k v := by
  intro m
  induction m with
  | zero => simp
  | succ m ih =>
    have hlt : v < 2 ^ (k + m) :=
      lt_of_lt_of_le hv (Nat.pow_le_pow_right (by norm_num) (by omega))
    have : toBits (k + (m + 1)) v = 48 :: toBits (k + m) v := by
      show toBits (k + m + 1) v = _
      simp only [toBits, Nat.div_eq_of_lt hlt]
      simp
    rw [this, ih, List.replicate_succ, List.cons_append]

theorem toBits_binVal (s : List Byte) :
    ∀ n, (∀ c ∈ s, isBit c) → toBits s.length (binVal s n) = s := by
  induction s with
  | nil => intro n _; rfl
  | cons c cs ih =>
    intro n h
    have hcs : ∀ x ∈ cs, isBit x := fun x hx => h x (List.mem_cons_of_mem _ hx)
    obtain ⟨r, hr, he⟩ := binVal_decomp cs (2 * n + (c.val - 48)) hcs
    rw [binVal_cons]
    show (if binVal cs (2 * n + (c.val - 48)) / 2 ^ cs.length % 2 = 1 then (49 : Byte) else 48)
        :: toBits cs.length (binVal cs (2 * n + (c.val - 48))) = c :: cs
    rw [ih _ hcs, he]
    have hq : ((2 * n + (c.val - 48)) * 2 ^ cs.length + r) / 2 ^ cs.length
        = 2 * n + (c.val - 48) := by
      rw [Nat.add_comm, Nat.add_mul_div_right _ _ (by positivity), Nat.div_eq_of_lt hr]
      simp
    rw [hq]
    congr 1
    rcases h c (List.mem_cons_self _ _) with hc | hc <;> subst hc
    · have : (2 * n + ((48 : Byte).val - 48)) % 2 = 0 := by
        show (2 * n + (48 - 48)) % 2 = 0
        omega
      rw [this]; rfl
    · have : (2 * n + ((49 : Byte).val - 48)) % 2 = 1 := by
        show (2 * n + (49 - 48)) % 2 = 1
        omega
      rw [this]; rfl

theorem byteBits_group (s : List Byte) (h : ∀ c ∈ s, isBit c) (h8 : s.length ≤ 8) :
    byteBits (Fin.ofNat (binVal s 0)) = List.replicate (8 - s.length) 48 ++ s := by
  have hlt := binVal_lt s h
  have hp : 2 ^ s.length ≤ 2 ^ 8 := Nat.pow_le_pow_right (by norm_num) h8
  have hv : (Fin.ofNat (binVal s 0) : Byte).val = binVal s 0 := by
    show binVal s 0 % 256 = binVal s 0
    exact Nat.mod_eq_of_lt (by norm_num at hp; omega)
  unfold byteBits
  rw [hv]
  have e : 8 = s.length + (8 - s.length) := by omega
  conv_lhs => rw [e]
  rw [toBits_pad _ _ hlt, toBits_binVal s 0 h]

/-! ## BitString.AsByteSlice -/

/-- The group of digits that one iteration of the loop parses. -/
theorem take_split (b : List Byte) (i : Nat) (h8 : 8 ≤ i) :
    b.take i = b.take (i - 8) ++ (b.take i).drop (i - 8) := by
  have : b.take (i - 8) = (b.take i).take (i - 8) := by
    rw [List.take_take]; congr 1; omega
  rw [this, List.take_append_drop]

theorem AsByteSliceLoop_zero (b : BitString) (out : List Byte) :
    AsByteSliceLoop b 0 out = (out, none) := by
  rw [AsByteSliceLoop]; simp

theorem AsByteSliceLoop_ok (b : BitString) :
    ∀ i out, i ≤ b.length → (∀ c ∈ b.take i, isBit c) →
      ∃ bytes, AsByteSliceLoop b i out = (bytes ++ out, none) ∧
        bytes.length = (i + 7) / 8 ∧
        bytes.flatMap byteBits = List.replicate ((8 - i % 8) % 8) 48 ++ b.take i := by
  intro i
  induction i using Nat.strong_induction_on with
  | _ i ih =>
    intro out hi hb
    by_cases h0 : i = 0
    · subst h0
      exact ⟨[], by rw [AsByteSliceLoop_zero]; rfl, rfl, by simp⟩
    · by_cases h8 : i < 8
      · have hlen : (b.take i).length = i := by simp; omega
        have hp := ParseUint_isBit (b.take i) hb (by intro h; rw [h] at hlen; simp at hlen; omega)
          (by omega)
        refine ⟨[Fin.ofNat (binVal (b.take i) 0)], ?_, ?_, ?_⟩
        · rw [AsByteSliceLoop]
          simp only [if_pos (Nat.pos_of_ne_zero h0), if_pos h8, hp]
          have : i - 8 = 0 := by omega
          rw [this, AsByteSliceLoop_zero]; rfl
        · simp; omega
        · simp only [List.flatMap_cons, List.flatMap_nil, List.append_nil]
          rw [byteBits_group _ hb (by omega), hlen]
          congr 2
          omega
      · have hs := take_split b i (by omega)
        have hlen : ((b.take i).drop (i - 8)).length = 8 := by simp; omega
        have hb1 : ∀ c ∈ (b.take i).drop (i - 8), isBit c :=
          fun c hc => hb c (List.mem_of_mem_drop hc)
        have hb2 : ∀ c ∈ b.take (i - 8), isBit c := by
          intro c hc; apply hb; rw [hs]; exact List.mem_append_left _ hc
        have hp := ParseUint_isBit _ hb1 (by intro h; rw [h] at hlen; simp at hlen) (by omega)
        obtain ⟨bytes, he, hl, hbits⟩ := ih (i - 8) (by omega)
          (Fin.ofNat (binVal ((b.take i).drop (i - 8)) 0) :: out) (by omega) hb2
        refine ⟨bytes ++ [Fin.ofNat (binVal ((b.take i).drop (i - 8)) 0)], ?_, ?_, ?_⟩
        · rw [AsByteSliceLoop]
          simp only [if_pos (Nat.pos_of_ne_zero h0), if_neg h8, hp]
          rw [he]; simp
        · simp; omega
        · rw [List.flatMap_append, hbits]
          simp only [List.flatMap_cons, List.flatMap_nil, List.append_nil]
          rw [byteBits_group _ hb1 (by omega), hlen]
          simp only [Nat.sub_self, List.replicate_zero, List.nil_append]
          rw [List.append_assoc, ← hs]
          congr 2
          omega

theorem AsByteSliceLoop_err (b : BitString) :
    ∀ i out, i ≤ b.length → (∃ c ∈ b.take i, ¬ isBit c) →
      ∃ e, AsByteSliceLoop b i out = ([], some e) := by
  intro i
  induction i using Nat.strong_induction_on with
  | _ i ih =>
    intro out hi hb
    have h0 : 0 < i := by
      rcases Nat.eq_zero_or_pos i with h | h
      · subst h; simp at hb
      · exact h
    by_cases h8 : i < 8
    · obtain ⟨v, e, hp⟩ := ParseUint_not_isBit (b.take i) hb
      refine ⟨e, ?_⟩
      rw [AsByteSliceLoop]
      simp only [if_pos h0, if_pos h8, hp]
    · by_cases hg : ∃ c ∈ (b.take i).drop (i - 8), ¬ isBit c
      · obtain ⟨v, e, hp⟩ := ParseUint_not_isBit _ hg
        refine ⟨e, ?_⟩
        rw [AsByteSliceLoop]
        simp only [if_pos h0, if_neg h8, hp]
      · have hb1 : ∀ c ∈ (b.take i).drop (i - 8), isBit c := by
          intro c hc
          by_contra hn
          exact hg ⟨c, hc, hn⟩
        have hlen : ((b.take i).drop (i - 8)).length = 8 := by simp; omega
        have hp := ParseUint_isBit _ hb1 (by intro h; rw [h] at hlen; simp at hlen) (by omega)
        have hb2 : ∃ c ∈ b.take (i - 8), ¬ isBit c := by
          obtain ⟨c, hc, hn⟩ := hb
          rw [take_split b i (by omega)] at hc
          rcases List.mem_append.mp hc with hc | hc
          · exact ⟨c, hc, hn⟩
          · exact absurd (hb1 c hc) hn
        obtain ⟨e, he⟩ := ih (i - 8) (by omega)
          (Fin.ofNat (binVal ((b.take i).drop (i - 8)) 0) :: out) (by omega) hb2
        refine ⟨e, ?_⟩
        rw [AsByteSliceLoop]
        simp only [if_pos h0, if_neg h8, hp]
        exact he

theorem AsByteSlice_ok (s : BitString) (h : ∀ c ∈ s, isBit c) :
    ∃ bytes, BitString.AsByteSlice s = (bytes, none) ∧ bytes.length = (s.length + 7) / 8 ∧
      bytes.flatMap byteBits = List.replicate ((8 - s.length % 8) % 8) 48 ++ s := by
  obtain ⟨bytes, he, hl, hb⟩ := AsByteSliceLoop_ok s s.length [] (le_refl _)
    (by simpa using h)
  refine ⟨bytes, ?_, hl, ?_⟩
  · unfold BitString.AsByteSlice; rw [he]; simp
  · simpa using hb

theorem AsByteSlice_err (s : BitString) (h : ∃ c ∈ s, ¬ isBit c) :
    ∃ e, BitString.AsByteSlice s = ([], some e) := by
  unfold BitString.AsByteSlice
  exact AsByteSliceLoop_err s s.length [] (le_refl _) (by simpa using h)

/-! ## encoding/base64: decoding inverts encoding -/

theorem and_63 (x : Nat) : x &&& 63 = x % 64 := Nat.and_pow_two_sub_one_eq_mod x 6

theorem or_eq_add (i x y : Nat) (hx : 2 ^ i ∣ x) (hy : y < 2 ^ i) : x ||| y = x + y := by
  obtain ⟨k, rfl⟩ := hx
  exact (Nat.mul_add_lt_is_or hy k).symm

theorem val3_eq (x y z : Nat) (hy : y < 256) (hz : z < 256) :
    x <<< 16 ||| y <<< 8 ||| z = x * 65536 + y * 256 + z := by
  simp only [Nat.shiftLeft_eq]
  norm_num
  rw [or_eq_add 16 (x * 65536) (y * 256) (by norm_num) (by norm_num; omega)]
  rw [or_eq_add 8 (x * 65536 + y * 256) z (by norm_num; omega) (by norm_num; omega)]

theorem val4_eq (p q r s : Nat) (hq : q < 64) (hr : r < 64) (hs : s < 64) :
    p <<< 18 ||| q <<< 12 ||| r <<< 6 ||| s = p * 262144 + q * 4096 + r * 64 + s := by
  simp only [Nat.shiftLeft_eq]
  norm_num
  rw [or_eq_add 18 (p * 262144) (q * 4096) (by norm_num) (by norm_num; omega)]
  rw [or_eq_add 12 (p * 262144 + q * 4096) (r * 64) (by norm_num; omega) (by norm_num; omega)]
  rw [or_eq_add 6 (p * 262144 + q * 4096 + r * 64) s (by norm_num; omega) (by norm_num; omega)]

theorem decodeMap_encodeChar : ∀ v : Fin 64, decodeMap (encodeChar v.val) = v.val := by
  decide


theorem decodeMap_encodeChar_lt (v : Nat) (h : v < 64) : decodeMap (encodeChar v) = v :=
  decodeMap_encodeChar ⟨v, h⟩

theorem decodeMap_padChar : decodeMap padChar = 255 := by decide

theorem quantum_three (x y z : Byte) :
    quantumBytes
      [(x.val <<< 16 ||| y.val <<< 8 ||| z.val) >>> 18 &&& 63,
       (x.val <<< 16 ||| y.val <<< 8 ||| z.val) >>> 12 &&& 63,
       (x.val <<< 16 ||| y.val <<< 8 ||| z.val) >>> 6 &&& 63,
       (x.val <<< 16 ||| y.val <<< 8 ||| z.val) &&& 63] 4 = [x, y, z] := by
  have hx := x.isLt
  have hy := y.isLt
  have hz := z.isLt
  rw [val3_eq _ _ _ hy hz]
  simp only [quantumBytes, List.getD_cons_zero, List.getD_cons_succ, and_63,
    Nat.shiftRight_eq_div_pow]
  rw [val4_eq _ _ _ _ (Nat.mod_lt _ (by norm_num)) (Nat.mod_lt _ (by norm_num))
    (Nat.mod_lt _ (by norm_num))]
  simp only [List.take, Nat.reduceSub, List.cons.injEq, and_true]
  refine ⟨?_, ?_, ?_⟩ <;> apply Fin.ext <;> simp only [Fin.ofNat, Nat.reducePow] <;> omega

theorem quantum_two (x y : Byte) :
    quantumBytes
      [(x.val <<< 16 ||| y.val <<< 8) >>> 18 &&& 63,
       (x.val <<< 16 ||| y.val <<< 8) >>> 12 &&& 63,
       (x.val <<< 16 ||| y.val <<< 8) >>> 6 &&& 63] 3 = [x, y] := by
  have hx := x.isLt
  have hy := y.isLt
  have h0 : x.val <<< 16 ||| y.val <<< 8 = x.val <<< 16 ||| y.val <<< 8 ||| 0 := by simp
  rw [h0, val3_eq _ _ _ hy (by norm_num)]
  simp only [quantumBytes, List.getD_cons_zero, List.getD_cons_succ, List.getD_nil, and_63,
    Nat.shiftRight_eq_div_pow]
  rw [val4_eq _ _ _ _ (Nat.mod_lt _ (by norm_num)) (Nat.mod_lt _ (by norm_num))
    (by norm_num)]
  simp only [List.take, Nat.reduceSub, List.cons.injEq, and_true]
  refine ⟨?_, ?_⟩ <;> apply Fin.ext <;> simp only [Fin.ofNat, Nat.reducePow] <;> omega

theorem quantum_one (x : Byte) :
    quantumBytes [(x.val <<< 16) >>> 18 &&& 63, (x.val <<< 16) >>> 12 &&& 63] 2 = [x] := by
  have hx := x.isLt
  have h0 : x.val <<< 16 = x.val <<< 16 ||| 0 <<< 8 ||| 0 := by simp
  rw [h0, val3_eq _ _ _ (by norm_num) (by norm_num)]
  simp only [quantumBytes, List.getD_cons_zero, List.getD_cons_succ, List.getD_nil, and_63,
    Nat.shiftRight_eq_div_pow]
  rw [val4_eq _ _ _ _ (Nat.mod_lt _ (by norm_num)) (by norm_num) (by norm_num)]
  simp only [List.take, Nat.reduceSub, List.cons.injEq, and_true]
  apply Fin.ext
  simp only [Fin.ofNat, Nat.reducePow]
  omega

theorem decodeLoop_digit (v : Nat) (hv : v < 64) (rest : List Byte) (dbuf : List Nat) :
    decodeLoop (encodeChar v :: rest) dbuf =
      if dbuf.length = 3 then
        match decodeLoop rest [] with
        | .error e => .error e
        | .ok tl => .ok (quantumBytes (dbuf ++ [v]) 4 ++ tl)
      else decodeLoop rest (dbuf ++ [v]) := by
  rw [decodeLoop, decodeMap_encodeChar_lt v hv, if_pos (by omega)]

theorem decodeLoop_pad_two (d0 d1 : Nat) :
    decodeLoop [padChar, padChar] [d0, d1] = .ok (quantumBytes [d0, d1] 2) := by
  rw [decodeLoop, decodeMap_padChar]
  simp [skipNewlines, padChar]

theorem decodeLoop_pad_one (d0 d1 d2 : Nat) :
    decodeLoop [padChar] [d0, d1, d2] = .ok (quantumBytes [d0, d1, d2] 3) := by
  rw [decodeLoop, decodeMap_padChar]
  simp [skipNewlines, padChar]

theorem digit_lt (x : Nat) : x &&& 63 < 64 := by
  rw [and_63]; exact Nat.mod_lt _ (by norm_num)

theorem DecodeString_EncodeToString (bs : List Byte) :
    DecodeString (EncodeToString bs) = .ok bs := by
  unfold DecodeString
  induction bs using EncodeToString.induct with
  | case1 => rfl
  | case2 a =>
    simp only [EncodeToString]
    rw [decodeLoop_digit _ (digit_lt _), if_neg (by simp), decodeLoop_digit _ (digit_lt _),
      if_neg (by simp)]
    simp only [List.nil_append, List.cons_append]
    rw [decodeLoop_pad_two, quantum_one]
  | case3 a b =>
    simp only [EncodeToString]
    rw [decodeLoop_digit _ (digit_lt _), if_neg (by simp), decodeLoop_digit _ (digit_lt _),
      if_neg (by simp), decodeLoop_digit _ (digit_lt _), if_neg (by simp)]
    simp only [List.nil_append, List.cons_append]
    rw [decodeLoop_pad_one, quantum_two]
  | case4 a b c rest ih =>
    simp only [EncodeToString]
    rw [decodeLoop_digit _ (digit_lt _), if_neg (by simp), decodeLoop_digit _ (digit_lt _),
      if_neg (by simp), decodeLoop_digit _ (digit_lt _), if_neg (by simp),
      decodeLoop_digit _ (digit_lt _), if_pos (by simp)]
    simp only [List.nil_append, List.cons_append]
    rw [ih, quantum_three]
    rfl

/-! ## CBC mode -/

theorem byte_xor_val (a b : Byte) : (a ^^^ b).val = a.val ^^^ b.val := by
  show (a.val ^^^ b.val) % 256 = a.val ^^^ b.val
  exact Nat.mod_eq_of_lt (Nat.xor_lt_two_pow (n := 8) a.isLt b.isLt)

theorem byte_xor_cancel (a b : Byte) : (a ^^^ b) ^^^ b = a := by
  apply Fin.ext
  rw [byte_xor_val, byte_xor_val, Nat.xor_assoc, Nat.xor_self, Nat.xor_zero]

theorem XORBytes_length (x y : List Byte) : (XORBytes x y).length = min x.length y.length := by
  simp [XORBytes]

theorem XORBytes_cancel (x : List Byte) :
    ∀ y : List Byte, x.length ≤ y.length → XORBytes (XORBytes x y) y = x := by
  induction x with
  | nil => intro y _; simp [XORBytes]
  | cons a x ih =>
    intro y hy
    cases y with
    | nil => simp at hy
    | cons b y =>
      have := ih y (by simpa using hy)
      simp only [XORBytes, List.zipWith_cons_cons] at this ⊢
      rw [this, byte_xor_cancel]

theorem cbcEncryptBlocks_nil (b : Block) (iv : List Byte) : cbcEncryptBlocks b iv [] = [] := by
  rw [cbcEncryptBlocks]; simp

theorem cbcDecryptBlocks_nil (b : Block) (iv : List Byte) : cbcDecryptBlocks b iv [] = [] := by
  rw [cbcDecryptBlocks]; simp

theorem cbcEncryptBlocks_cons (b : Block) (iv src : List Byte) (h : 0 < src.length) :
    cbcEncryptBlocks b iv src =
      b.Encrypt (XORBytes (src.take 8) iv) ++
        cbcEncryptBlocks b (b.Encrypt (XORBytes (src.take 8) iv)) (src.drop 8) := by
  rw [cbcEncryptBlocks]; simp only [if_pos h, BlockSize]

theorem cbcDecryptBlocks_cons (b : Block) (iv src : List Byte) (h : 0 < src.length) :
    cbcDecryptBlocks b iv src =
      XORBytes (b.Decrypt (src.take 8)) iv ++ cbcDecryptBlocks b (src.take 8) (src.drop 8) := by
  rw [cbcDecryptBlocks]; simp only [if_pos h, BlockSize]

theorem cbc_block_length (b : Block) (iv src : List Byte) (hiv : iv.length = 8)
    (h : 8 ≤ src.length) : (b.Encrypt (XORBytes (src.take 8) iv)).length = 8 := by
  apply b.Encrypt_length
  rw [XORBytes_length, List.length_take, hiv]
  omega

theorem cbcEncryptBlocks_length (b : Block) :
    ∀ (n : Nat) (iv src : List Byte), src.length = 8 * n → iv.length = 8 →
      (cbcEncryptBlocks b iv src).length = src.length := by
  intro n
  induction n with
  | zero =>
    intro iv src hs _
    have : src = [] := List.length_eq_zero.mp (by omega)
    subst this
    rw [cbcEncryptBlocks_nil]
  | succ n ih =>
    intro iv src hs hiv
    rw [cbcEncryptBlocks_cons b iv src (by omega), List.length_append,
      cbc_block_length b iv src hiv (by omega),
      ih _ (src.drop 8) (by rw [List.length_drop]; omega) (cbc_block_length b iv src hiv (by omega)),
      List.length_drop]
    omega

theorem cbcDecrypt_cbcEncrypt (b : Block) :
    ∀ (n : Nat) (iv src : List Byte), src.length = 8 * n → iv.length = 8 →
      cbcDecryptBlocks b iv (cbcEncryptBlocks b iv src) = src := by
  intro n
  induction n with
  | zero =>
    intro iv src hs _
    have : src = [] := List.length_eq_zero.mp (by omega)
    subst this
    rw [cbcEncryptBlocks_nil, cbcDecryptBlocks_nil]
  | succ n ih =>
    intro iv src hs hiv
    have hblk := cbc_block_length b iv src hiv (by omega)
    have hx : (XORBytes (src.take 8) iv).length = 8 := by
      rw [XORBytes_length, List.length_take, hiv]; omega
    rw [cbcEncryptBlocks_cons b iv src (by omega)]
    rw [cbcDecryptBlocks_cons b iv _ (by rw [List.length_append]; omega)]
    rw [List.take_left' hblk, List.drop_left' hblk, b.Decrypt_Encrypt _ hx,
      XORBytes_cancel _ _ (by rw [List.length_take, hiv]; omega),
      ih _ (src.drop 8) (by rw [List.length_drop]; omega) hblk, List.take_append_drop]

/-! ## The padded buffer -/

theorem pad_fill (v : Byte) :
    ∀ (k : Nat) (pre : List Byte),
      (List.range' pre.length k).foldl (fun d i => d.set i v) (pre ++ List.replicate k 0)
        = pre ++ List.replicate k v := by
  intro k
  induction k with
  | zero => intro pre; simp
  | succ k ih =>
    intro pre
    rw [List.range'_succ, List.foldl_cons, List.replicate_succ,
      List.set_append_right _ _ (le_refl _)]
    simp only [Nat.sub_self, List.set_cons_zero]
    have h := ih (pre ++ [v])
    simp only [List.length_append, List.length_singleton, List.append_assoc,
      List.singleton_append] at h
    rw [h, List.replicate_succ]

theorem paddedData_eq (input : List Byte) (pad : Nat) :
    paddedData input pad = input ++ List.replicate pad (Fin.ofNat pad) := by
  unfold paddedData
  simp only [List.length_replicate, List.drop_replicate, Nat.add_sub_cancel_left]
  rw [List.take_of_length_le (by omega)]
  exact pad_fill _ pad input

/-! ## crypt.go: the envelope -/

theorem NewTripleDESCipher_ok (des : List Byte → Block) (key : List Byte)
    (hk : key.length = 24) : NewTripleDESCipher des key = .ok (des key) := by
  unfold NewTripleDESCipher
  rw [if_neg (by omega)]

theorem NewTripleDESCipher_error (des : List Byte → Block) (key : List Byte)
    (hk : key.length ≠ 24) :
    NewTripleDESCipher des key = .error (GoError.keySize key.length) := by
  unfold NewTripleDESCipher
  rw [if_pos hk]

theorem TripleDESCBCEncrypt_ok (des : List Byte → Block) (p key iv : List Byte)
    (hk : key.length = 24) (hiv : iv.length = 8) :
    TripleDESCBCEncrypt des p key iv =
      .ret (EncodeToString (cbcEncryptBlocks (des key) iv
        (p ++ List.replicate (8 - p.length % 8) (Fin.ofNat (8 - p.length % 8)))), none) := by
  have hpad : (if 8 - p.length % 8 = 0 then 8 else 8 - p.length % 8) = 8 - p.length % 8 :=
    if_neg (by omega)
  simp only [TripleDESCBCEncrypt, BlockSize, NewTripleDESCipher_ok des key hk, CBCEncrypt, hpad,
    paddedData_eq]
  rw [if_neg (by omega), if_neg (by rw [List.length_append, List.length_replicate]; omega)]

theorem TripleDESCBCEncrypt_keySize (des : List Byte → Block) (p key iv : List Byte)
    (hk : key.length ≠ 24) :
    TripleDESCBCEncrypt des p key iv =
      .ret ([], some (GoError.wrapped "new tripledes cipher: " (GoError.keySize key.length))) := by
  simp only [TripleDESCBCEncrypt, NewTripleDESCipher_error des key hk]

theorem TripleDESCBCDecrypt_ok (des : List Byte → Block) (payload key iv ct : List Byte)
    (hd : DecodeString payload = .ok ct) (hk : key.length = 24) (hiv : iv.length = 8)
    (h8 : 8 ≤ ct.length) (hm : ct.length % 8 = 0) :
    TripleDESCBCDecrypt des payload key iv = .ret (cbcDecryptBlocks (des key) iv ct, none) := by
  simp only [TripleDESCBCDecrypt, BlockSize, hd, NewTripleDESCipher_ok des key hk, CBCDecrypt]
  rw [if_neg (by omega), if_neg (by omega), if_neg (by omega), if_neg (by omega)]

theorem padded_length (p : List Byte) :
    (p ++ List.replicate (8 - p.length % 8) (Fin.ofNat (8 - p.length % 8) : Byte)).length
      = 8 * (p.length / 8 + 1) := by
  rw [List.length_append, List.length_replicate]
  omega

theorem pad_byte_val (n : Nat) : (Fin.ofNat (8 - n % 8) : Byte).val = 8 - n % 8 := by
  show (8 - n % 8) % 256 = 8 - n % 8
  omega

/-! ## Round trip through the envelope -/

theorem TripleDESCBCDecrypt_Encrypt (des : List Byte → Block) (p key iv : List Byte)
    (hk : key.length = 24) (hiv : iv.length = 8) :
    TripleDESCBCDecrypt des
        (EncodeToString (cbcEncryptBlocks (des key) iv
          (p ++ List.replicate (8 - p.length % 8) (Fin.ofNat (8 - p.length % 8))))) key iv
      = .ret (p ++ List.replicate (8 - p.length % 8) (Fin.ofNat (8 - p.length % 8)), none) := by
  have hl := padded_length p
  have hcl := cbcEncryptBlocks_length (des key) _ iv _ hl hiv
  rw [TripleDESCBCDecrypt_ok des _ key iv _ (DecodeString_EncodeToString _) hk hiv
    (by rw [hcl, hl]; omega) (by rw [hcl, hl]; omega)]
  rw [cbcDecrypt_cbcEncrypt (des key) _ iv _ hl hiv]

theorem EncodeToString_length (bs : List Byte) :
    (EncodeToString bs).length = 4 * ((bs.length + 2) / 3) := by
  induction bs using EncodeToString.induct with
  | case1 => rfl
  | case2 a => simp [EncodeToString]
  | case3 a b => simp [EncodeToString]
  | case4 a b c rest ih =>
    simp only [EncodeToString, List.length_cons, ih]
    omega

theorem Api_encrypt_eq (des : List Byte → Block) (a : Api) (val key iv : List Byte)
    (hk : BitString.AsByteSlice a.config.sharedKey = (key, none))
    (hv : BitString.AsByteSlice a.config.sharedVector = (iv, none))
    (hkl : key.length = 24) (hivl : iv.length = 8) :
    Api.encrypt des a val = TripleDESCBCEncrypt des val key iv := by
  simp only [Api.encrypt, hk, hv]
  rw [TripleDESCBCEncrypt_ok des val key iv hkl hivl]
  simp only [TripleDESCBCDecrypt_Encrypt des val key iv hkl hivl]

theorem Api_decrypt_eq (des : List Byte → Block) (a : Api) (val key iv : List Byte)
    (hk : BitString.AsByteSlice a.config.sharedKey = (key, none))
    (hv : BitString.AsByteSlice a.config.sharedVector = (iv, none)) :
    Api.decrypt des a val = TripleDESCBCEncrypt des val key iv := by
  simp only [Api.decrypt, hk, hv]

theorem isBit_replicate (n : Nat) : ∀ c ∈ List.replicate n (48 : Byte), isBit c := by
  intro c hc
  exact Or.inl (List.eq_of_mem_replicate hc)

/-! ## Properties of the specification -/

/-- C1: for a 24-byte key and an 8-byte IV, `TripleDESCBCEncrypt` succeeds and
`TripleDESCBCDecrypt` of its output succeeds and returns the plaintext
followed by `8 - len(p) mod 8` pad bytes (8 for an aligned plaintext), each
of which has that number as its value; the padding is not stripped. -/
theorem C1_decrypt_encrypt_keeps_padding (des : List Byte → Block) (p key iv : List Byte)
    (hk : key.length = 24) (hiv : iv.length = 8) :
    ∃ c pad, TripleDESCBCEncrypt des p key iv = .ret (c, none) ∧
      TripleDESCBCDecrypt des c key iv = .ret (p ++ pad, none) ∧
      pad.length = 8 - p.length % 8 ∧ (∀ x ∈ pad, x.val = 8 - p.length % 8) ∧
      (p.length % 8 = 0 → pad.length = 8) ∧ pad ≠ [] := by
  refine ⟨_, List.replicate (8 - p.length % 8) (Fin.ofNat (8 - p.length % 8)),
    TripleDESCBCEncrypt_ok des p key iv hk hiv, TripleDESCBCDecrypt_Encrypt des p key iv hk hiv,
    List.length_replicate _ _, ?_, ?_, ?_⟩
  · intro x hx
    rw [List.eq_of_mem_replicate hx]
    exact pad_byte_val _
  · intro h
    rw [List.length_replicate, h]
  · intro h
    have := congrArg List.length h
    rw [List.length_replicate] at this
    simp at this
    omega

theorem C1_decrypt_encrypt_keeps_padding_witness :
    (List.replicate 24 (0 : Byte)).length = 24 ∧ (List.replicate 8 (0 : Byte)).length = 8 ∧
    ∃ c pad, TripleDESCBCEncrypt sampleBlock [80, 73, 78, 71] (List.replicate 24 0)
        (List.replicate 8 0) = .ret (c, none) ∧
      TripleDESCBCDecrypt sampleBlock c (List.replicate 24 0) (List.replicate 8 0)
        = .ret ([80, 73, 78, 71] ++ pad, none) ∧
      pad.length = 8 - ([80, 73, 78, 71] : List Byte).length % 8 ∧
      (∀ x ∈ pad, x.val = 8 - ([80, 73, 78, 71] : List Byte).length % 8) ∧
      (([80, 73, 78, 71] : List Byte).length % 8 = 0 → pad.length = 8) ∧ pad ≠ [] :=
  ⟨by decide, by decide,
    C1_decrypt_encrypt_keeps_padding sampleBlock [80, 73, 78, 71] (List.replicate 24 0)
      (List.replicate 8 0) (by decide) (by decide)⟩

/-- C2 (the code departs from the claim): for the client `zeroKeyApi`, whose
bit-strings parse to a 24-byte key and an 8-byte IV, `Api.decrypt` of the
empty body returns a 12-character ciphertext and no error, whereas
`TripleDESCBCDecrypt` of the empty body fails with "ciphertext too short";
and `Api.decrypt (Api.encrypt "")` is a 24-character ciphertext, not the 8
pad bytes. `Api.decrypt` returns what `TripleDESCBCEncrypt` returns. -/
theorem C2_Api_decrypt_encrypts (des : List Byte → Block) :
    ∃ key iv c c0 c1,
      BitString.AsByteSlice zeroKeyApi.config.sharedKey = (key, none) ∧ key.length = 24 ∧
      BitString.AsByteSlice zeroKeyApi.config.sharedVector = (iv, none) ∧ iv.length = 8 ∧
      Api.decrypt des zeroKeyApi [] = .ret (c, none) ∧ c.length = 12 ∧
      Api.decrypt des zeroKeyApi [] = TripleDESCBCEncrypt des [] key iv ∧
      TripleDESCBCDecrypt des [] key iv
        = .ret ([], some (GoError.errorString "ciphertext too short")) ∧
      Api.encrypt des zeroKeyApi [] = .ret (c0, none) ∧
      Api.decrypt des zeroKeyApi c0 = .ret (c1, none) ∧ c1.length = 24 := by
  obtain ⟨key, hk, hkl, _⟩ := AsByteSlice_ok zeroKeyApi.config.sharedKey (isBit_replicate 192)
  obtain ⟨iv, hv, hvl, _⟩ := AsByteSlice_ok zeroKeyApi.config.sharedVector (isBit_replicate 64)
  have hkn : zeroKeyApi.config.sharedKey.length = 192 := List.length_replicate 192 _
  have hvn : zeroKeyApi.config.sharedVector.length = 64 := List.length_replicate 64 _
  have hkl : key.length = 24 := by rw [hkl, hkn]
  have hvl : iv.length = 8 := by rw [hvl, hvn]
  have henc : ∀ val : List Byte, ∃ c, TripleDESCBCEncrypt des val key iv = .ret (c, none) ∧
      c.length = 4 * ((8 * (val.length / 8 + 1) + 2) / 3) := by
    intro val
    refine ⟨_, TripleDESCBCEncrypt_ok des val key iv hkl hvl, ?_⟩
    rw [EncodeToString_length,
      cbcEncryptBlocks_length (des key) _ iv _ (padded_length val) hvl, padded_length]
  obtain ⟨c, hc, hcl⟩ := henc []
  obtain ⟨c1, hc1, hcl1⟩ := henc c
  refine ⟨key, iv, c, c, c1, hk, hkl, hv, hvl, ?_, ?_, Api_decrypt_eq des _ [] key iv hk hv, ?_,
    ?_, ?_, ?_⟩
  · rw [Api_decrypt_eq des _ [] key iv hk hv, hc]
  · rw [hcl]; rfl
  · simp only [TripleDESCBCDecrypt, DecodeString, decodeLoop, List.length_nil, if_true,
      NewTripleDESCipher_ok des key hkl, BlockSize]
    rfl
  · rw [Api_encrypt_eq des _ [] key iv hk hv hkl hvl, hc]
  · rw [Api_decrypt_eq des _ c key iv hk hv, hc1]
  · rw [hcl1, hcl]; rfl

/-- C3: for a bit-string of `0`/`1` characters of any length `n`,
`AsByteSlice` succeeds and returns exactly `ceil(n/8)` bytes, that is the
least number of bytes with `n ≤ 8 * bytes`. -/
theorem C3_AsByteSlice_length (s : BitString) (h : ∀ c ∈ s, isBit c) :
    ∃ bytes, BitString.AsByteSlice s = (bytes, none) ∧ bytes.length = (s.length + 7) / 8 ∧
      s.length ≤ 8 * bytes.length ∧ 8 * bytes.length < s.length + 8 := by
  obtain ⟨bytes, he, hl, _⟩ := AsByteSlice_ok s h
  exact ⟨bytes, he, hl, by omega, by omega⟩

theorem C3_AsByteSlice_length_witness :
    (∀ c ∈ ([49, 48, 48, 48, 48, 48, 48, 48, 49] : BitString), isBit c) ∧
    ∃ bytes, BitString.AsByteSlice [49, 48, 48, 48, 48, 48, 48, 48, 49] = (bytes, none) ∧
      bytes.length = (([49, 48, 48, 48, 48, 48, 48, 48, 49] : BitString).length + 7) / 8 ∧
      ([49, 48, 48, 48, 48, 48, 48, 48, 49] : BitString).length ≤ 8 * bytes.length ∧
      8 * bytes.length < ([49, 48, 48, 48, 48, 48, 48, 48, 49] : BitString).length + 8 :=
  ⟨by simp [isBit], C3_AsByteSlice_length [49, 48, 48, 48, 48, 48, 48, 48, 49] (by simp [isBit])⟩

/-- C4: for a bit-string `s` of `0`/`1` characters, the bytes of
`AsByteSlice s`, each written as 8 binary digits most significant bit first
and concatenated in order, are `s` left-padded with `0` characters to the
next multiple of 8 digits. -/
theorem C4_AsByteSlice_bits (s : BitString) (h : ∀ c ∈ s, isBit c) :
    ∃ bytes, BitString.AsByteSlice s = (bytes, none) ∧
      bytes.flatMap byteBits = List.replicate ((8 - s.length % 8) % 8) 48 ++ s ∧
      (s.length + (8 - s.length % 8) % 8) % 8 = 0 := by
  obtain ⟨bytes, he, _, hb⟩ := AsByteSlice_ok s h
  exact ⟨bytes, he, hb, by omega⟩

theorem C4_AsByteSlice_bits_witness :
    (∀ c ∈ ([49, 48, 49, 48, 48, 48, 48, 48, 48, 49] : BitString), isBit c) ∧
    ∃ bytes, BitString.AsByteSlice [49, 48, 49, 48, 48, 48, 48, 48, 48, 49] = (bytes, none) ∧
      bytes.flatMap byteBits
        = List.replicate
            ((8 - ([49, 48, 49, 48, 48, 48, 48, 48, 48, 49] : BitString).length % 8) % 8) 48
          ++ [49, 48, 49, 48, 48, 48, 48, 48, 48, 49] ∧
      (([49, 48, 49, 48, 48, 48, 48, 48, 48, 49] : BitString).length
        + (8 - ([49, 48, 49, 48, 48, 48, 48, 48, 48, 49] : BitString).length % 8) % 8) % 8 = 0 :=
  ⟨by simp [isBit], C4_AsByteSlice_bits [49, 48, 49, 48, 48, 48, 48, 48, 48, 49] (by simp [isBit])⟩

/-- C5: `AsByteSlice` returns an error exactly when the string contains a
character other than `0` or `1`, and on error it returns no bytes. -/
theorem C5_AsByteSlice_error_iff (s : BitString) :
    ((∃ e, (BitString.AsByteSlice s).2 = some e) ↔ ∃ c ∈ s, ¬ isBit c) ∧
    (∀ e, (BitString.AsByteSlice s).2 = some e → (BitString.AsByteSlice s).1 = []) := by
  by_cases h : ∃ c ∈ s, ¬ isBit c
  · obtain ⟨e, he⟩ := AsByteSlice_err s h
    rw [he]
    exact ⟨⟨fun _ => h, fun _ => ⟨e, rfl⟩⟩, fun _ _ => rfl⟩
  · have hall : ∀ c ∈ s, isBit c := by
      intro c hc
      by_contra hn
      exact h ⟨c, hc, hn⟩
    obtain ⟨bytes, he, _, _⟩ := AsByteSlice_ok s hall
    rw [he]
    refine ⟨⟨?_, fun h' => absurd h' h⟩, ?_⟩
    · rintro ⟨e, he'⟩
      simp at he'
    · intro e he'
      simp at he'

/-- C6: for a 24-byte key and an 8-byte IV, `TripleDESCBCEncrypt` succeeds and
its output base64-decodes to exactly `8 * (len(p) / 8 + 1)` bytes, a positive
multiple of 8 greater than `len(p)`; the empty plaintext gives one 8-byte
block, and the plaintext "PING" gives 8 bytes that decrypt to "PING"
followed by four bytes of value 4. -/
theorem C6_ciphertext_length (des : List Byte → Block) (p key iv : List Byte)
    (hk : key.length = 24) (hiv : iv.length = 8) :
    (∃ c data, TripleDESCBCEncrypt des p key iv = .ret (c, none) ∧
      DecodeString c = .ok data ∧ data.length = 8 * (p.length / 8 + 1) ∧
      0 < data.length ∧ data.length % 8 = 0 ∧ p.length < data.length) ∧
    (∃ c data, TripleDESCBCEncrypt des [] key iv = .ret (c, none) ∧
      DecodeString c = .ok data ∧ data.length = 8) ∧
    (∃ c data, TripleDESCBCEncrypt des [80, 73, 78, 71] key iv = .ret (c, none) ∧
      DecodeString c = .ok data ∧ data.length = 8 ∧
      TripleDESCBCDecrypt des c key iv = .ret ([80, 73, 78, 71, 4, 4, 4, 4], none)) := by
  have hgen : ∀ q : List Byte, ∃ c data, TripleDESCBCEncrypt des q key iv = .ret (c, none) ∧
      DecodeString c = .ok data ∧ data.length = 8 * (q.length / 8 + 1) := by
    intro q
    refine ⟨_, _, TripleDESCBCEncrypt_ok des q key iv hk hiv, DecodeString_EncodeToString _, ?_⟩
    rw [cbcEncryptBlocks_length (des key) _ iv _ (padded_length q) hiv, padded_length]
  refine ⟨?_, ?_, ?_⟩
  · obtain ⟨c, data, h1, h2, h3⟩ := hgen p
    exact ⟨c, data, h1, h2, h3, by omega, by omega, by omega⟩
  · obtain ⟨c, data, h1, h2, h3⟩ := hgen []
    exact ⟨c, data, h1, h2, h3⟩
  · refine ⟨_, _, TripleDESCBCEncrypt_ok des _ key iv hk hiv, DecodeString_EncodeToString _, ?_,
      TripleDESCBCDecrypt_Encrypt des [80, 73, 78, 71] key iv hk hiv⟩
    rw [cbcEncryptBlocks_length (des key) _ iv _ (padded_length _) hiv, padded_length]
    rfl

theorem C6_ciphertext_length_witness :
    (List.replicate 24 (0 : Byte)).length = 24 ∧ (List.replicate 8 (0 : Byte)).length = 8 ∧
    ((∃ c data, TripleDESCBCEncrypt sampleBlock [1, 2, 3, 4, 5, 6, 7, 8, 9]
        (List.replicate 24 0) (List.replicate 8 0) = .ret (c, none) ∧
      DecodeString c = .ok data ∧
      data.length = 8 * (([1, 2, 3, 4, 5, 6, 7, 8, 9] : List Byte).length / 8 + 1) ∧
      0 < data.length ∧ data.length % 8 = 0 ∧
      ([1, 2, 3, 4, 5, 6, 7, 8, 9] : List Byte).length < data.length) ∧
    (∃ c data, TripleDESCBCEncrypt sampleBlock [] (List.replicate 24 0) (List.replicate 8 0)
        = .ret (c, none) ∧
      DecodeString c = .ok data ∧ data.length = 8) ∧
    (∃ c data, TripleDESCBCEncrypt sampleBlock [80, 73, 78, 71] (List.replicate 24 0)
        (List.replicate 8 0) = .ret (c, none) ∧
      DecodeString c = .ok data ∧ data.length = 8 ∧
      TripleDESCBCDecrypt sampleBlock c (List.replicate 24 0) (List.replicate 8 0)
        = .ret ([80, 73, 78, 71, 4, 4, 4, 4], none))) :=
  ⟨by decide, by decide,
    C6_ciphertext_length sampleBlock [1, 2, 3, 4, 5, 6, 7, 8, 9] (List.replicate 24 0)
      (List.replicate 8 0) (by decide) (by decide)⟩

/-- C7: for an 8-byte IV, `TripleDESCBCEncrypt` returns an error exactly when
the key is not 24 bytes long, and then the returned string is empty; with a
24-byte key it returns the base64 encoding of some bytes and no error. -/
theorem C7_encrypt_error_iff_key_size (des : List Byte → Block) (p key iv : List Byte)
    (hiv : iv.length = 8) :
    ((∃ c e, TripleDESCBCEncrypt des p key iv = .ret (c, some e)) ↔ key.length ≠ 24) ∧
    (∀ c e, TripleDESCBCEncrypt des p key iv = .ret (c, some e) → c = []) ∧
    (key.length = 24 →
      ∃ data, TripleDESCBCEncrypt des p key iv = .ret (EncodeToString data, none) ∧
        DecodeString (EncodeToString data) = .ok data) := by
  by_cases hk : key.length = 24
  · have he := TripleDESCBCEncrypt_ok des p key iv hk hiv
    refine ⟨⟨?_, fun h => absurd hk h⟩, ?_, fun _ => ⟨_, he, DecodeString_EncodeToString _⟩⟩
    · rintro ⟨c, e, h⟩
      rw [he] at h
      simp at h
    · intro c e h
      rw [he] at h
      simp at h
  · have he := TripleDESCBCEncrypt_keySize des p key iv hk
    refine ⟨⟨fun _ => hk, fun _ => ⟨_, _, he⟩⟩, ?_, fun h => absurd h hk⟩
    intro c e h
    rw [he] at h
    simp only [Outcome.ret.injEq, Prod.mk.injEq] at h
    exact h.1.symm

theorem C7_encrypt_error_iff_key_size_witness :
    (List.replicate 8 (0 : Byte)).length = 8 ∧
    (((∃ c e, TripleDESCBCEncrypt sampleBlock [80, 73, 78, 71] (List.replicate 16 0)
        (List.replicate 8 0) = .ret (c, some e)) ↔ (List.replicate 16 (0 : Byte)).length ≠ 24) ∧
    (∀ c e, TripleDESCBCEncrypt sampleBlock [80, 73, 78, 71] (List.replicate 16 0)
        (List.replicate 8 0) = .ret (c, some e) → c = []) ∧
    ((List.replicate 16 (0 : Byte)).length = 24 →
      ∃ data, TripleDESCBCEncrypt sampleBlock [80, 73, 78, 71] (List.replicate 16 0)
          (List.replicate 8 0) = .ret (EncodeToString data, none) ∧
        DecodeString (EncodeToString data) = .ok data)) :=
  ⟨by decide,
    C7_encrypt_error_iff_key_size sampleBlock [80, 73, 78, 71] (List.replicate 16 0)
      (List.replicate 8 0) (by decide)⟩

/-- C8: for an 8-byte IV, `TripleDESCBCDecrypt` succeeds exactly when the
payload is valid standard base64, the key is 24 bytes long and the decoded
ciphertext has at least 8 bytes and a multiple of 8 bytes; in every other
case it returns an error and an empty string. The empty payload is always
rejected, with a 24-byte key as "ciphertext too short". -/
theorem C8_decrypt_succeeds_iff (des : List Byte → Block) (payload key iv : List Byte)
    (hiv : iv.length = 8) :
    ((∃ s, TripleDESCBCDecrypt des payload key iv = .ret (s, none)) ↔
      (∃ ct, DecodeString payload = .ok ct ∧ key.length = 24 ∧ 8 ≤ ct.length ∧
        ct.length % 8 = 0)) ∧
    ((¬ ∃ ct, DecodeString payload = .ok ct ∧ key.length = 24 ∧ 8 ≤ ct.length ∧
        ct.length % 8 = 0) →
      ∃ e, TripleDESCBCDecrypt des payload key iv = .ret ([], some e)) ∧
    (∃ e, TripleDESCBCDecrypt des [] key iv = .ret ([], some e)) ∧
    (key.length = 24 → TripleDESCBCDecrypt des [] key iv
      = .ret ([], some (GoError.errorString "ciphertext too short"))) := by
  have hcases : ∀ q : List Byte,
      (∃ ct, DecodeString q = .ok ct ∧ key.length = 24 ∧ 8 ≤ ct.length ∧ ct.length % 8 = 0 ∧
        TripleDESCBCDecrypt des q key iv = .ret (cbcDecryptBlocks (des key) iv ct, none)) ∨
      ((¬ ∃ ct, DecodeString q = .ok ct ∧ key.length = 24 ∧ 8 ≤ ct.length ∧
          ct.length % 8 = 0) ∧
        ∃ e, TripleDESCBCDecrypt des q key iv = .ret ([], some e)) := by
    intro q
    cases hd : DecodeString q with
    | error e =>
      right
      refine ⟨?_, e, ?_⟩
      · rintro ⟨ct, h, _⟩
        simp at h
      · simp only [TripleDESCBCDecrypt, hd]
    | ok ct =>
      by_cases hk : key.length = 24
      · by_cases h8 : ct.length < 8
        · right
          refine ⟨?_, GoError.errorString "ciphertext too short", ?_⟩
          · rintro ⟨ct', h, _, h8', _⟩
            injection h with h
            subst h
            omega
          · simp only [TripleDESCBCDecrypt, hd, NewTripleDESCipher_ok des key hk, BlockSize]
            rw [if_pos h8]
        · by_cases hm : ct.length % 8 = 0
          · left
            exact ⟨ct, rfl, hk, by omega, hm,
              TripleDESCBCDecrypt_ok des q key iv ct hd hk hiv (by omega) hm⟩
          · right
            refine ⟨?_, GoError.errorString "ciphertext is not a multiple of the block size", ?_⟩
            · rintro ⟨ct', h, _, _, hm'⟩
              injection h with h
              subst h
              exact hm hm'
            · simp only [TripleDESCBCDecrypt, hd, NewTripleDESCipher_ok des key hk, BlockSize]
              rw [if_neg h8, if_pos hm]
      · right
        refine ⟨?_, GoError.keySize key.length, ?_⟩
        · rintro ⟨_, _, hk', _⟩
          exact hk hk'
        · simp only [TripleDESCBCDecrypt, hd, NewTripleDESCipher_error des key hk]
  have hempty : DecodeString [] = .ok [] := rfl
  refine ⟨⟨?_, ?_⟩, ?_, ?_, ?_⟩
  · rintro ⟨s, hs⟩
    rcases hcases payload with ⟨ct, h1, h2, h3, h4, _⟩ | ⟨_, e, he⟩
    · exact ⟨ct, h1, h2, h3, h4⟩
    · rw [he] at hs
      simp at hs
  · rintro ⟨ct, h1, h2, h3, h4⟩
    exact ⟨_, TripleDESCBCDecrypt_ok des payload key iv ct h1 h2 hiv h3 h4⟩
  · intro hn
    rcases hcases payload with ⟨ct, h1, h2, h3, h4, _⟩ | ⟨_, he⟩
    · exact absurd ⟨ct, h1, h2, h3, h4⟩ hn
    · exact he
  · rcases hcases [] with ⟨ct, h1, _, h3, _⟩ | ⟨_, he⟩
    · rw [hempty] at h1
      injection h1 with h1
      subst h1
      simp at h3
    · exact he
  · intro hk
    simp only [TripleDESCBCDecrypt, hempty, NewTripleDESCipher_ok des key hk, BlockSize]
    rfl

theorem C8_decrypt_succeeds_iff_witness :
    (List.replicate 8 (0 : Byte)).length = 8 ∧
    (((∃ s, TripleDESCBCDecrypt sampleBlock [65, 65, 61, 61] (List.replicate 24 0)
        (List.replicate 8 0) = .ret (s, none)) ↔
      (∃ ct, DecodeString [65, 65, 61, 61] = .ok ct ∧ (List.replicate 24 (0 : Byte)).length = 24 ∧
        8 ≤ ct.length ∧ ct.length % 8 = 0)) ∧
    ((¬ ∃ ct, DecodeString [65, 65, 61, 61] = .ok ct ∧
        (List.replicate 24 (0 : Byte)).length = 24 ∧ 8 ≤ ct.length ∧ ct.length % 8 = 0) →
      ∃ e, TripleDESCBCDecrypt sampleBlock [65, 65, 61, 61] (List.replicate 24 0)
        (List.replicate 8 0) = .ret ([], some e)) ∧
    (∃ e, TripleDESCBCDecrypt sampleBlock [] (List.replicate 24 0) (List.replicate 8 0)
      = .ret ([], some e)) ∧
    ((List.replicate 24 (0 : Byte)).length = 24 →
      TripleDESCBCDecrypt sampleBlock [] (List.replicate 24 0) (List.replicate 8 0)
        = .ret ([], some (GoError.errorString "ciphertext too short")))) :=
  ⟨by decide,
    C8_decrypt_succeeds_iff sampleBlock [65, 65, 61, 61] (List.replicate 24 0)
      (List.replicate 8 0) (by decide)⟩

/-- C9 (the code departs from the claim): a decoded error payload with
response code "x51" whose ResponseText is "Insufficient funds" does not match
`ErrInsufficientFunds`, and one with response code "03x" whose ResponseText
is "Account not allowed" does not match `ErrToAccountNotAllowed`, neither
through `Is` nor through `errors.Is`: `Is` compares the rendered text
`message=<ResponseText> code=<Response>`, not the response code alone. -/
theorem C9_Is_compares_rendered_text :
    (({ Message := "", Response := "x51", Responsedata := JsonAny.null,
        Data := { ResponseText := "Insufficient funds", Status := JsonAny.null } } :
        ApiResponseErrorResult).Response = ErrInsufficientFunds.Response) ∧
    ApiResponseErrorResult.Is
      { Message := "", Response := "x51", Responsedata := JsonAny.null,
        Data := { ResponseText := "Insufficient funds", Status := JsonAny.null } }
      ErrInsufficientFunds = false ∧
    errorsIs (GoError.api
      { Message := "", Response := "x51", Responsedata := JsonAny.null,
        Data := { ResponseText := "Insufficient funds", Status := JsonAny.null } })
      ErrInsufficientFunds = false ∧
    (({ Message := "", Response := "03x", Responsedata := JsonAny.null,
        Data := { ResponseText := "Account not allowed", Status := JsonAny.null } } :
        ApiResponseErrorResult).Response = ErrToAccountNotAllowed.Response) ∧
    ApiResponseErrorResult.Is
      { Message := "", Response := "03x", Responsedata := JsonAny.null,
        Data := { ResponseText := "Account not allowed", Status := JsonAny.null } }
      ErrToAccountNotAllowed = false ∧
    errorsIs (GoError.api
      { Message := "", Response := "03x", Responsedata := JsonAny.null,
        Data := { ResponseText := "Account not allowed", Status := JsonAny.null } })
      ErrToAccountNotAllowed = false := by
  refine ⟨rfl, ?_, ?_, rfl, ?_, ?_⟩ <;> decide

/-- C10: when the HTTP status is outside [200,299] and the response body is
empty, `Api.request` returns no bytes and the error
`empty response received: <status text>`; that error is not an
`ApiResponseErrorResult` and matches neither sentinel. -/
theorem C10_empty_body_is_transport_error (http : HttpRequest → Exchange)
    (unmarshal : List Byte → Except GoError ApiResponseErrorResult)
    (a : Api) (uri method : String) (data : List Byte) (result : HttpResponse)
    (hx : http { Method := method, URL := a.config.baseUrl ++ uri,
                 AppId := toString a.config.appId, Body := data } = Exchange.response result)
    (hs : result.StatusCode < 200 ∨ result.StatusCode > 299) (hb : result.Body = []) :
    Api.request http unmarshal a uri method data
      = ([], some (GoError.errorString ("empty response received: " ++ result.Status))) ∧
    (∀ e, (Api.request http unmarshal a uri method data).2 ≠ some (GoError.api e)) ∧
    (∀ err, (Api.request http unmarshal a uri method data).2 = some err →
      errorsIs err ErrInsufficientFunds = false ∧ errorsIs err ErrToAccountNotAllowed = false) := by
  have he : Api.request http unmarshal a uri method data
      = ([], some (GoError.errorString ("empty response received: " ++ result.Status))) := by
    simp only [Api.request, hx, hb]
    rw [if_pos hs]
    rfl
  refine ⟨he, ?_, ?_⟩
  · intro e h
    rw [he] at h
    simp at h
  · intro err h
    rw [he] at h
    simp only [Option.some.injEq] at h
    subst h
    exact ⟨rfl, rfl⟩

theorem C10_empty_body_is_transport_error_witness :
    ((fun _ => Exchange.response
        { Status := "503 Service Unavailable", StatusCode := 503, Body := [] }) :
        HttpRequest → Exchange)
      { Method := "POST", URL := zeroKeyApi.config.baseUrl ++ "/api/Spay/InterbankTransferReq",
        AppId := toString zeroKeyApi.config.appId, Body := [] }
      = Exchange.response
          { Status := "503 Service Unavailable", StatusCode := 503, Body := [] } ∧
    ((503 : Int) < 200 ∨ (503 : Int) > 299) ∧
    Api.request
        (fun _ => Exchange.response
          { Status := "503 Service Unavailable", StatusCode := 503, Body := [] })
        (fun _ => .error (GoError.json "unexpected end of JSON input"))
        zeroKeyApi "/api/Spay/InterbankTransferReq" "POST" []
      = ([], some (GoError.errorString
          ("empty response received: " ++ "503 Service Unavailable"))) :=
  ⟨rfl, by decide,
    (C10_empty_body_is_transport_error
      (fun _ => Exchange.response
        { Status := "503 Service Unavailable", StatusCode := 503, Body := [] })
      (fun _ => .error (GoError.json "unexpected end of JSON input"))
      zeroKeyApi "/api/Spay/InterbankTransferReq" "POST" []
      { Status := "503 Service Unavailable", StatusCode := 503, Body := [] }
      rfl (by decide) rfl).1⟩

/-! ## Response classification -/

theorem request_response (http : HttpRequest → Exchange)
    (unmarshal : List Byte → Except GoError ApiResponseErrorResult)
    (a : Api) (uri method : String) (data : List Byte) (result : HttpResponse)
    (hx : http { Method := method, URL := a.config.baseUrl ++ uri,
                 AppId := toString a.config.appId, Body := data } = Exchange.response result) :
    Api.request http unmarshal a uri method data =
      if result.StatusCode < 200 ∨ result.StatusCode > 299 then
        if result.Body.length ≤ 0 then
          ([], some (GoError.errorString ("empty response received: " ++ result.Status)))
        else
          match unmarshal result.Body with
          | .error err =>
            ([], some (GoError.wrapped "could not unmarshal error response to error obj: " err))
          | .ok errMsg => ([], some (GoError.api errMsg))
      else (result.Body, none) := by
  simp only [Api.request, hx]

theorem request_success (http : HttpRequest → Exchange)
    (unmarshal : List Byte → Except GoError ApiResponseErrorResult)
    (a : Api) (uri method : String) (data : List Byte) (result : HttpResponse)
    (hx : http { Method := method, URL := a.config.baseUrl ++ uri,
                 AppId := toString a.config.appId, Body := data } = Exchange.response result)
    (hs : 200 ≤ result.StatusCode ∧ result.StatusCode ≤ 299) :
    Api.request http unmarshal a uri method data = (result.Body, none) := by
  rw [request_response http unmarshal a uri method data result hx, if_neg (by omega)]

theorem request_failure (http : HttpRequest → Exchange)
    (unmarshal : List Byte → Except GoError ApiResponseErrorResult)
    (a : Api) (uri method : String) (data : List Byte) (result : HttpResponse)
    (hx : http { Method := method, URL := a.config.baseUrl ++ uri,
                 AppId := toString a.config.appId, Body := data } = Exchange.response result)
    (hs : result.StatusCode < 200 ∨ result.StatusCode > 299) :
    ∃ e, Api.request http unmarshal a uri method data = ([], some e) := by
  rw [request_response http unmarshal a uri method data result hx, if_pos hs]
  split_ifs
  · exact ⟨_, rfl⟩
  · cases unmarshal result.Body with
    | error err => exact ⟨_, rfl⟩
    | ok errMsg => exact ⟨_, rfl⟩

theorem length_pos_of_ne_nil (b : List Byte) (h : b ≠ []) : ¬ b.length ≤ 0 := by
  intro hl
  exact h (List.length_eq_zero.mp (by omega))

/-- C11: when the HTTP status is outside [200,299] and the body decodes to an
error payload with response code "x51" and ResponseText "Insufficient Funds"
(as `{"response":"x51","data":{"ResponseText":"Insufficient Funds"}}` does),
`Api.request` returns no bytes and that payload as the error; `errors.Is`
holds for `ErrInsufficientFunds` and fails for `ErrToAccountNotAllowed`. -/
theorem C11_insufficient_funds_is_matched (http : HttpRequest → Exchange)
    (unmarshal : List Byte → Except GoError ApiResponseErrorResult)
    (a : Api) (uri method : String) (data : List Byte) (result : HttpResponse)
    (e : ApiResponseErrorResult)
    (hx : http { Method := method, URL := a.config.baseUrl ++ uri,
                 AppId := toString a.config.appId, Body := data } = Exchange.response result)
    (hs : result.StatusCode < 200 ∨ result.StatusCode > 299) (hb : result.Body ≠ [])
    (hu : unmarshal result.Body = .ok e)
    (hc : e.Response = "x51") (ht : e.Data.ResponseText = "Insufficient Funds") :
    Api.request http unmarshal a uri method data = ([], some (GoError.api e)) ∧
    errorsIs (GoError.api e) ErrInsufficientFunds = true ∧
    e.Is ErrInsufficientFunds = true ∧
    errorsIs (GoError.api e) ErrToAccountNotAllowed = false ∧
    e.Is ErrToAccountNotAllowed = false := by
  have hyes : e.Is ErrInsufficientFunds = true := by
    simp only [ApiResponseErrorResult.Is, ApiResponseErrorResult.Error,
      ApiResponseErrorResult.String, hc, ht]
    decide
  have hno : e.Is ErrToAccountNotAllowed = false := by
    simp only [ApiResponseErrorResult.Is, ApiResponseErrorResult.Error,
      ApiResponseErrorResult.String, hc, ht]
    decide
  refine ⟨?_, hyes, hyes, hno, hno⟩
  rw [request_response http unmarshal a uri method data result hx, if_pos hs,
    if_neg (length_pos_of_ne_nil _ hb), hu]

theorem C11_insufficient_funds_is_matched_witness :
    answering "503 Service Unavailable" 503 insufficientFundsBody
        { Method := "POST", URL := zeroKeyApi.config.baseUrl ++ "/api/Spay/SBPT24txnRequest",
          AppId := toString zeroKeyApi.config.appId, Body := [] }
      = Exchange.response
          { Status := "503 Service Unavailable", StatusCode := 503,
            Body := insufficientFundsBody } ∧
    ((503 : Int) < 200 ∨ (503 : Int) > 299) ∧ insufficientFundsBody ≠ [] ∧
    insufficientFundsPayload.Response = "x51" ∧
    insufficientFundsPayload.Data.ResponseText = "Insufficient Funds" ∧
    (Api.request (answering "503 Service Unavailable" 503 insufficientFundsBody)
        (fun _ => .ok insufficientFundsPayload) zeroKeyApi "/api/Spay/SBPT24txnRequest" "POST" []
      = ([], some (GoError.api insufficientFundsPayload)) ∧
    errorsIs (GoError.api insufficientFundsPayload) ErrInsufficientFunds = true ∧
    insufficientFundsPayload.Is ErrInsufficientFunds = true ∧
    errorsIs (GoError.api insufficientFundsPayload) ErrToAccountNotAllowed = false ∧
    insufficientFundsPayload.Is ErrToAccountNotAllowed = false) :=
  ⟨rfl, by decide, by simp [insufficientFundsBody], rfl, rfl,
    C11_insufficient_funds_is_matched
      (answering "503 Service Unavailable" 503 insufficientFundsBody)
      (fun _ => .ok insufficientFundsPayload) zeroKeyApi "/api/Spay/SBPT24txnRequest" "POST" []
      { Status := "503 Service Unavailable", StatusCode := 503, Body := insufficientFundsBody }
      insufficientFundsPayload rfl (by decide) (by simp [insufficientFundsBody]) rfl rfl rfl⟩

/-- C12: when a response with status `s` and body `b` is read, `Api.request`
returns no error exactly when `200 ≤ s ≤ 299`, and then the returned bytes
are `b` itself, whatever `b` contains; otherwise it returns no bytes and an
error. -/
theorem C12_success_iff_2xx (http : HttpRequest → Exchange)
    (unmarshal : List Byte → Except GoError ApiResponseErrorResult)
    (a : Api) (uri method : String) (data : List Byte) (result : HttpResponse)
    (hx : http { Method := method, URL := a.config.baseUrl ++ uri,
                 AppId := toString a.config.appId, Body := data } = Exchange.response result) :
    ((Api.request http unmarshal a uri method data).2 = none ↔
      (200 ≤ result.StatusCode ∧ result.StatusCode ≤ 299)) ∧
    ((200 ≤ result.StatusCode ∧ result.StatusCode ≤ 299) →
      Api.request http unmarshal a uri method data = (result.Body, none)) ∧
    (¬ (200 ≤ result.StatusCode ∧ result.StatusCode ≤ 299) →
      ∃ e, Api.request http unmarshal a uri method data = ([], some e)) := by
  have hok := request_success http unmarshal a uri method data result hx
  have hfail := request_failure http unmarshal a uri method data result hx
  refine ⟨⟨?_, fun hs => by rw [hok hs]⟩, hok, fun hs => hfail (by omega)⟩
  intro h
  by_contra hs
  obtain ⟨e, he⟩ := hfail (by omega)
  rw [he] at h
  simp at h

theorem C12_success_iff_2xx_witness :
    answering "200 OK" 200 []
        { Method := "POST", URL := zeroKeyApi.config.baseUrl ++ "/api/Spay/SBPT24txnRequest",
          AppId := toString zeroKeyApi.config.appId, Body := [1, 2, 3] }
      = Exchange.response { Status := "200 OK", StatusCode := 200, Body := [] } ∧
    (((Api.request (answering "200 OK" 200 []) (fun _ => .error (GoError.json "unused"))
          zeroKeyApi "/api/Spay/SBPT24txnRequest" "POST" [1, 2, 3]).2 = none ↔
      ((200 : Int) ≤ 200 ∧ (200 : Int) ≤ 299)) ∧
    (((200 : Int) ≤ 200 ∧ (200 : Int) ≤ 299) →
      Api.request (answering "200 OK" 200 []) (fun _ => .error (GoError.json "unused"))
          zeroKeyApi "/api/Spay/SBPT24txnRequest" "POST" [1, 2, 3] = ([], none)) ∧
    (¬ ((200 : Int) ≤ 200 ∧ (200 : Int) ≤ 299) →
      ∃ e, Api.request (answering "200 OK" 200 []) (fun _ => .error (GoError.json "unused"))
          zeroKeyApi "/api/Spay/SBPT24txnRequest" "POST" [1, 2, 3] = ([], some e))) :=
  ⟨rfl,
    C12_success_iff_2xx (answering "200 OK" 200 []) (fun _ => .error (GoError.json "unused"))
      zeroKeyApi "/api/Spay/SBPT24txnRequest" "POST" [1, 2, 3]
      { Status := "200 OK", StatusCode := 200, Body := [] } rfl⟩

/-- C14: when the HTTP status is outside [200,299] and the non-empty body
cannot be decoded as the error payload, `Api.request` returns no bytes and
the error "could not unmarshal error response to error obj" wrapping the
decoder's failure; it is neither a success nor an `ApiResponseErrorResult`. -/
theorem C14_undecodable_error_body (http : HttpRequest → Exchange)
    (unmarshal : List Byte → Except GoError ApiResponseErrorResult)
    (a : Api) (uri method : String) (data : List Byte) (result : HttpResponse) (err : GoError)
    (hx : http { Method := method, URL := a.config.baseUrl ++ uri,
                 AppId := toString a.config.appId, Body := data } = Exchange.response result)
    (hs : result.StatusCode < 200 ∨ result.StatusCode > 299) (hb : result.Body ≠ [])
    (hu : unmarshal result.Body = .error err) :
    Api.request http unmarshal a uri method data
      = ([], some (GoError.wrapped "could not unmarshal error response to error obj: " err)) ∧
    (Api.request http unmarshal a uri method data).2 ≠ none ∧
    (∀ e, (Api.request http unmarshal a uri method data).2 ≠ some (GoError.api e)) ∧
    (Api.request http unmarshal a uri method data).1 = [] := by
  have he : Api.request http unmarshal a uri method data
      = ([], some (GoError.wrapped "could not unmarshal error response to error obj: " err)) := by
    rw [request_response http unmarshal a uri method data result hx, if_pos hs,
      if_neg (length_pos_of_ne_nil _ hb), hu]
  rw [he]
  refine ⟨rfl, by simp, ?_, rfl⟩
  intro e h
  simp at h

theorem C14_undecodable_error_body_witness :
    answering "502 Bad Gateway" 502 [110, 111, 116, 32, 106, 115, 111, 110]
        { Method := "POST", URL := zeroKeyApi.config.baseUrl ++ "/api/Spay/SBPT24txnRequest",
          AppId := toString zeroKeyApi.config.appId, Body := [] }
      = Exchange.response
          { Status := "502 Bad Gateway", StatusCode := 502,
            Body := [110, 111, 116, 32, 106, 115, 111, 110] } ∧
    ((502 : Int) < 200 ∨ (502 : Int) > 299) ∧
    ([110, 111, 116, 32, 106, 115, 111, 110] : List Byte) ≠ [] ∧
    Api.request (answering "502 Bad Gateway" 502 [110, 111, 116, 32, 106, 115, 111, 110])
        (fun _ => .error (GoError.json "invalid character in literal null"))
        zeroKeyApi "/api/Spay/SBPT24txnRequest" "POST" []
      = ([], some (GoError.wrapped "could not unmarshal error response to error obj: "
          (GoError.json "invalid character in literal null"))) :=
  ⟨rfl, by decide, by simp,
    (C14_undecodable_error_body
      (answering "502 Bad Gateway" 502 [110, 111, 116, 32, 106, 115, 111, 110])
      (fun _ => .error (GoError.json "invalid character in literal null"))
      zeroKeyApi "/api/Spay/SBPT24txnRequest" "POST" []
      { Status := "502 Bad Gateway", StatusCode := 502,
        Body := [110, 111, 116, 32, 106, 115, 111, 110] }
      (GoError.json "invalid character in literal null")
      rfl (by decide) (by simp) rfl).1⟩

/-! ## Malformed bit-strings -/

theorem ParseUintLoop_malformed (s : List Byte) :
    ∀ n k, n < 2 ^ k → k + s.length ≤ 8 → (∃ c ∈ s, ¬ isBit c) →
      ParseUintLoop 2 255 (2 ^ 63) s n = (0, some GoError.numSyntax) := by
  induction s with
  | nil => intro n k _ _ h; simp at h
  | cons c cs ih =>
    intro n k hn hk h
    simp only [List.length_cons] at hk
    have hp : 2 ^ (k + 1) ≤ 2 ^ 8 := Nat.pow_le_pow_right (by norm_num) (by omega)
    have hp2 : 2 ^ (k + 1) = 2 * 2 ^ k := by rw [pow_succ]; omega
    by_cases hc : isBit c
    · have hcs : ∃ x ∈ cs, ¬ isBit x := by
        obtain ⟨x, hx, hnx⟩ := h
        rcases List.mem_cons.mp hx with rfl | hx
        · exact absurd hc hnx
        · exact ⟨x, hx, hnx⟩
      obtain ⟨hd, hlt⟩ := digitVal_of_isBit c hc
      simp only [ParseUintLoop, hd]
      have e0 : n * 2 % 2 ^ 64 = n * 2 := Nat.mod_eq_of_lt (by norm_num at hp ⊢; omega)
      have e1 : (n * 2 + (c.val - 48)) % 2 ^ 64 = n * 2 + (c.val - 48) :=
        Nat.mod_eq_of_lt (by norm_num at hp ⊢; omega)
      rw [e0, e1, if_neg (by omega), if_neg (by norm_num at hp ⊢; omega),
        if_neg (by norm_num at hp; omega)]
      exact ih _ (k + 1) (by omega) (by omega) hcs
    · simp only [ParseUintLoop]
      split
      · rfl
      · rename_i d hd
        rw [if_pos (digitVal_of_not_isBit c hc d hd)]

theorem ParseUint_malformed (s : List Byte) (h8 : s.length ≤ 8) (h : ∃ c ∈ s, ¬ isBit c) :
    ParseUint s 2 8 = (0, some GoError.numSyntax) := by
  unfold ParseUint
  have h0 : s ≠ [] := by
    rintro rfl
    simp at h
  rw [if_neg h0, if_neg (by omega)]
  have e : (2 ^ 64 - 1) / 2 + 1 = 2 ^ 63 := by norm_num
  have e2 : 2 ^ 8 - 1 = 255 := by norm_num
  rw [e, e2]
  exact ParseUintLoop_malformed s 0 0 (by norm_num) (by omega) h

theorem AsByteSliceLoop_malformed (b : BitString) :
    ∀ i out, i ≤ b.length → (∃ c ∈ b.take i, ¬ isBit c) →
      AsByteSliceLoop b i out = ([], some GoError.numSyntax) := by
  intro i
  induction i using Nat.strong_induction_on with
  | _ i ih =>
    intro out hi hb
    have h0 : 0 < i := by
      rcases Nat.eq_zero_or_pos i with h | h
      · subst h; simp at hb
      · exact h
    by_cases h8 : i < 8
    · have hp := ParseUint_malformed (b.take i) (by simp; omega) hb
      rw [AsByteSliceLoop]
      simp only [if_pos h0, if_pos h8, hp]
    · have hlen : ((b.take i).drop (i - 8)).length = 8 := by simp; omega
      by_cases hg : ∃ c ∈ (b.take i).drop (i - 8), ¬ isBit c
      · have hp := ParseUint_malformed _ (by omega) hg
        rw [AsByteSliceLoop]
        simp only [if_pos h0, if_neg h8, hp]
      · have hb1 : ∀ c ∈ (b.take i).drop (i - 8), isBit c := by
          intro c hc
          by_contra hn
          exact hg ⟨c, hc, hn⟩
        have hp := ParseUint_isBit _ hb1 (by intro h; rw [h] at hlen; simp at hlen) (by omega)
        have hb2 : ∃ c ∈ b.take (i - 8), ¬ isBit c := by
          obtain ⟨c, hc, hn⟩ := hb
          rw [take_split b i (by omega)] at hc
          rcases List.mem_append.mp hc with hc | hc
          · exact ⟨c, hc, hn⟩
          · exact absurd (hb1 c hc) hn
        rw [AsByteSliceLoop]
        simp only [if_pos h0, if_neg h8, hp]
        exact ih (i - 8) (by omega) _ (by omega) hb2

theorem AsByteSlice_malformed (s : BitString) (h : ∃ c ∈ s, ¬ isBit c) :
    BitString.AsByteSlice s = ([], some GoError.numSyntax) := by
  unfold BitString.AsByteSlice
  exact AsByteSliceLoop_malformed s s.length [] (le_refl _) (by simpa using h)

theorem AsByteSlice_cases (s : BitString) :
    (∃ bytes, BitString.AsByteSlice s = (bytes, none)) ∨
      BitString.AsByteSlice s = ([], some GoError.numSyntax) := by
  by_cases h : ∃ c ∈ s, ¬ isBit c
  · exact Or.inr (AsByteSlice_malformed s h)
  · left
    have hall : ∀ c ∈ s, isBit c := by
      intro c hc
      by_contra hn
      exact h ⟨c, hc, hn⟩
    obtain ⟨bytes, he, _, _⟩ := AsByteSlice_ok s hall
    exact ⟨bytes, he⟩

theorem Api_encrypt_key_error (des : List Byte → Block) (a : Api) (val b : List Byte)
    (e : GoError) (hk : BitString.AsByteSlice a.config.sharedKey = (b, some e)) :
    Api.encrypt des a val = .ret ([], some e) := by
  simp only [Api.encrypt, hk]

theorem Api_encrypt_vector_error (des : List Byte → Block) (a : Api) (val key b : List Byte)
    (e : GoError) (hk : BitString.AsByteSlice a.config.sharedKey = (key, none))
    (hv : BitString.AsByteSlice a.config.sharedVector = (b, some e)) :
    Api.encrypt des a val = .ret ([], some e) := by
  simp only [Api.encrypt, hk, hv]

theorem Api_encrypt_parsed (des : List Byte → Block) (a : Api) (val key iv : List Byte)
    (hk : BitString.AsByteSlice a.config.sharedKey = (key, none))
    (hv : BitString.AsByteSlice a.config.sharedVector = (iv, none)) :
    Api.encrypt des a val = TripleDESCBCEncrypt des val key iv := by
  by_cases hkl : key.length = 24
  · by_cases hvl : iv.length = 8
    · exact Api_encrypt_eq des a val key iv hk hv hkl hvl
    · have hpad : (if 8 - val.length % 8 = 0 then 8 else 8 - val.length % 8)
          = 8 - val.length % 8 := if_neg (by omega)
      have he : TripleDESCBCEncrypt des val key iv
          = .panic "cipher.NewCBCEncrypter: IV length must equal block size" := by
        simp only [TripleDESCBCEncrypt, BlockSize, NewTripleDESCipher_ok des key hkl, CBCEncrypt,
          hpad]
        rw [if_pos hvl]
      simp only [Api.encrypt, hk, hv, he]
  · simp only [Api.encrypt, hk, hv, TripleDESCBCEncrypt_keySize des val key iv hkl]

/-- C15: when both bit-strings parse, `Api.encrypt` returns exactly what
`TripleDESCBCEncrypt` returns for the parsed key and IV (string and error):
the decryption test does not change the result. When the key bit-string, or
else the IV bit-string, fails to parse, `Api.encrypt` returns the empty
string and that error. -/
theorem C15_Api_encrypt_is_TripleDESCBCEncrypt (des : List Byte → Block) (a : Api)
    (val : List Byte) :
    (∀ key iv, BitString.AsByteSlice a.config.sharedKey = (key, none) →
      BitString.AsByteSlice a.config.sharedVector = (iv, none) →
      Api.encrypt des a val = TripleDESCBCEncrypt des val key iv) ∧
    (∀ b e, BitString.AsByteSlice a.config.sharedKey = (b, some e) →
      Api.encrypt des a val = .ret ([], some e)) ∧
    (∀ key b e, BitString.AsByteSlice a.config.sharedKey = (key, none) →
      BitString.AsByteSlice a.config.sharedVector = (b, some e) →
      Api.encrypt des a val = .ret ([], some e)) :=
  ⟨fun key iv hk hv => Api_encrypt_parsed des a val key iv hk hv,
    fun b e hk => Api_encrypt_key_error des a val b e hk,
    fun key b e hk hv => Api_encrypt_vector_error des a val key b e hk hv⟩

theorem C15_Api_encrypt_is_TripleDESCBCEncrypt_witness :
    ∃ key iv c, BitString.AsByteSlice zeroKeyApi.config.sharedKey = (key, none) ∧
      BitString.AsByteSlice zeroKeyApi.config.sharedVector = (iv, none) ∧
      TripleDESCBCEncrypt sampleBlock [80, 73, 78, 71] key iv = .ret (c, none) ∧
      Api.encrypt sampleBlock zeroKeyApi [80, 73, 78, 71] = .ret (c, none) := by
  obtain ⟨key, hk, hkl, _⟩ := AsByteSlice_ok zeroKeyApi.config.sharedKey (isBit_replicate 192)
  obtain ⟨iv, hv, hvl, _⟩ := AsByteSlice_ok zeroKeyApi.config.sharedVector (isBit_replicate 64)
  have hkn : zeroKeyApi.config.sharedKey.length = 192 := List.length_replicate 192 _
  have hvn : zeroKeyApi.config.sharedVector.length = 64 := List.length_replicate 64 _
  have he := TripleDESCBCEncrypt_ok sampleBlock [80, 73, 78, 71] key iv (by rw [hkl, hkn])
    (by rw [hvl, hvn])
  refine ⟨key, iv, _, hk, hv, he, ?_⟩
  rw [(C15_Api_encrypt_is_TripleDESCBCEncrypt sampleBlock zeroKeyApi [80, 73, 78, 71]).1
    key iv hk hv, he]

/-- C16 (as stated, false on the code): with the malformed key bit-string "2"
and a non-empty base URL, `NewApi` returns a client and no error. -/
theorem C16_NewApi_accepts_malformed_key :
    (∃ c ∈ ([50] : BitString), ¬ isBit c) ∧
    ∃ a, NewApi (List.replicate 64 48) [50] 1 "0123456789" false
      "https://sbdevzone.sterling.ng/Spay" = (some a, none) :=
  ⟨⟨50, by simp, by decide⟩, ⟨_, rfl⟩⟩

/-- C16 (amended): `NewApi` does not parse the bit-strings. For a key or IV
bit-string that contains a character other than `0`/`1` and a non-empty base
URL it returns a client holding the bit-strings as given and no error; the
malformed configuration surfaces when the client is used: every call of
`Api.encrypt` and of `Api.decrypt` returns the empty string and the
`strconv` syntax error. -/
theorem C16_malformed_bits_fail_on_use (sharedVector sharedKey : BitString) (appId : Int)
    (fromAccount : String) (shouldDecryptResponse : Bool) (baseUrl : String)
    (hbase : baseUrl ≠ "")
    (hbad : (∃ c ∈ sharedKey, ¬ isBit c) ∨ (∃ c ∈ sharedVector, ¬ isBit c)) :
    ∃ a, NewApi sharedVector sharedKey appId fromAccount shouldDecryptResponse baseUrl
        = (some a, none) ∧
      a.config.sharedKey = sharedKey ∧ a.config.sharedVector = sharedVector ∧
      ∀ (des : List Byte → Block) (val : List Byte),
        Api.encrypt des a val = .ret ([], some GoError.numSyntax) ∧
        Api.decrypt des a val = .ret ([], some GoError.numSyntax) := by
  refine ⟨{ config := { appId := appId, sharedKey := sharedKey, sharedVector := sharedVector,
                        baseUrl := baseUrl, FromAccount := fromAccount },
            tellerId := tellerId, shouldDecryptResponse := shouldDecryptResponse },
    by simp only [NewApi, if_neg hbase], rfl, rfl, ?_⟩
  intro des val
  rcases AsByteSlice_cases sharedKey with ⟨key, hk⟩ | hk
  · have hv : BitString.AsByteSlice sharedVector = ([], some GoError.numSyntax) := by
      rcases hbad with h | h
      · rw [AsByteSlice_malformed sharedKey h] at hk
        simp at hk
      · exact AsByteSlice_malformed sharedVector h
    constructor
    · simp only [Api.encrypt, hk, hv]
    · simp only [Api.decrypt, hk, hv]
  · constructor
    · simp only [Api.encrypt, hk]
    · simp only [Api.decrypt, hk]

theorem C16_malformed_bits_fail_on_use_witness :
    ("https://sbdevzone.sterling.ng/Spay" ≠ "") ∧
    ((∃ c ∈ ([50] : BitString), ¬ isBit c) ∨
      (∃ c ∈ (List.replicate 64 48 : BitString), ¬ isBit c)) ∧
    ∃ a, NewApi (List.replicate 64 48) [50] 1 "0123456789" false
        "https://sbdevzone.sterling.ng/Spay" = (some a, none) ∧
      a.config.sharedKey = [50] ∧ a.config.sharedVector = List.replicate 64 48 ∧
      ∀ (des : List Byte → Block) (val : List Byte),
        Api.encrypt des a val = .ret ([], some GoError.numSyntax) ∧
        Api.decrypt des a val = .ret ([], some GoError.numSyntax) :=
  ⟨by decide, Or.inl ⟨50, by simp, by decide⟩,
    C16_malformed_bits_fail_on_use (List.replicate 64 48) [50] 1 "0123456789" false
      "https://sbdevzone.sterling.ng/Spay" (by decide) (Or.inl ⟨50, by simp, by decide⟩)⟩

/-- C17: in `TripleDESCBCEncrypt` the pad length `8 - len(input) mod 8` lies in
1..8, so the `pad == 0` branch leaves it unchanged; `byte(pad)` has the value
`pad`; the buffer built by `make`, `copy` and the fill loop is the input
followed by `pad` bytes of value `pad`, a whole number of blocks; and that
buffer is what `TripleDESCBCEncrypt` encrypts, for every key and IV. -/
theorem C17_pad_is_one_to_eight (input : List Byte) :
    1 ≤ BlockSize - input.length % BlockSize ∧ BlockSize - input.length % BlockSize ≤ 8 ∧
    (if BlockSize - input.length % BlockSize = 0 then BlockSize
      else BlockSize - input.length % BlockSize) = BlockSize - input.length % BlockSize ∧
    (Fin.ofNat (BlockSize - input.length % BlockSize) : Byte).val
      = BlockSize - input.length % BlockSize ∧
    paddedData input (BlockSize - input.length % BlockSize)
      = input ++ List.replicate (BlockSize - input.length % BlockSize)
          (Fin.ofNat (BlockSize - input.length % BlockSize)) ∧
    (paddedData input (BlockSize - input.length % BlockSize)).length % BlockSize = 0 ∧
    ∀ (des : List Byte → Block) (key iv : List Byte),
      TripleDESCBCEncrypt des input key iv =
        match NewTripleDESCipher des key with
        | .error err => .ret ([], some (GoError.wrapped "new tripledes cipher: " err))
        | .ok cb =>
          match CBCEncrypt cb iv (input ++ List.replicate (BlockSize - input.length % BlockSize)
              (Fin.ofNat (BlockSize - input.length % BlockSize))) with
          | .panic msg => .panic msg
          | .ret data => .ret (EncodeToString data, none) := by
  have hm := Nat.mod_lt input.length (show 0 < 8 by norm_num)
  have hpad : (if 8 - input.length % 8 = 0 then 8 else 8 - input.length % 8)
      = 8 - input.length % 8 := if_neg (by omega)
  simp only [BlockSize]
  refine ⟨by omega, by omega, hpad, pad_byte_val _, paddedData_eq _ _, ?_, ?_⟩
  · rw [paddedData_eq, padded_length]
    omega
  · intro des key iv
    simp only [TripleDESCBCEncrypt, BlockSize, hpad, paddedData_eq]

/-! ## The transfer calls -/

end Spay
